import Mathlib

/-!
Shallow embedding of the caching/resolution engine of `src/app.go`
(package githubapp): the two-level cache mapping owner → installation →
repository, its time-throttled paginated refreshes, and the token
issuance entry point `App.CreateInstallationToken`.

Modelling conventions:
* `time.Time` values and `time.Duration` are modelled as `Nat`; the Go
  code only uses `Add` (addition) and `After` (strict `>`), which the
  `Nat` order embeds faithfully.  The zero value of `time.Time` is `0`.
* Every call of `time.Now()` in the Go code reads one value from an
  ambient clock `World.clock : Nat → Nat` indexed by a tick counter that
  the execution state threads; the code reads the clock at exactly the
  source positions where `time.Now()` appears.
* The remote collaborators (`ListInstallations`, `CreateInstallationToken`
  on the client, and `ListRepos` of the factory-made client) are abstract
  environment functions in `World`; each remote call is recorded, with its
  arguments, in an instrumentation log so that theorems can speak about
  which remote requests an operation performed.
* The Go state `App` holds `installs []*installation`; the slice is
  replaced wholesale on a refresh.  `App.updateRepositories` captures a
  pointer into the old slice before calling back into
  `CreateInstallationToken`, which may replace the slice; a write through
  the stale pointer is then invisible in the cache.  Pointer identity of
  the slice is modelled by a generation counter `AppState.gen` that each
  wholesale replacement increments: the repository write lands in the
  cache exactly when the generation is unchanged, which is exactly when
  the slice was not replaced in between.
* Fallible code returns a `Res` value: `ok`/`err` mirror Go results,
  `crash` models the nil-pointer dereference that `updateRepositories`
  performs when no installation matches, and `diverge` models running out
  of fuel, used only to make the unbounded `for` loops (pagination, and
  the mutual recursion CreateInstallationToken → getRepositoryID →
  updateRepositories → CreateInstallationToken) total.
-/

set_option maxHeartbeats 1000000

namespace Githubapp

/-- Instants and durations; `time.Time`/`time.Duration` with `Add` = `+`
and `After` = `>`. -/
abbrev Time := Nat

/-- One element of the remote installation listing: `*github.Installation`
restricted to the two accessors the code reads, `GetID()` and
`Account.GetLogin()` (src/app.go lines 116-121). -/
structure GhInstallation where
  id : Int
  login : String
deriving DecidableEq

/-- One element of the remote repository listing: `*github.Repository`
restricted to `GetID()` and `GetName()` (src/app.go lines 179-184). -/
structure GhRepository where
  id : Int
  name : String
deriving DecidableEq

/-- Abstract permission payload `*github.InstallationPermissions`; the code
never inspects it, it is only passed through to the token mint.  The
concrete fields are abstracted as an association list. -/
structure InstallationPermissions where
  entries : List (String × String)
deriving DecidableEq

/-- The empty permission set `&github.InstallationPermissions{}`
(src/app.go line 163). -/
def emptyPermissions : InstallationPermissions := { entries := [] }

/-- The minted `*github.InstallationToken`; the code only reads
`GetToken()` (src/app.go line 171), so only that field is modelled. -/
structure InstallationToken where
  token : String
deriving DecidableEq

/-- Cached repository entry, struct `repository` (src/app.go lines 61-64). -/
structure repository where
  ID : Int
  Name : String
deriving DecidableEq

/-- Cached installation entry, struct `installation` (src/app.go lines
53-58). -/
structure installation where
  ID : Int
  Owner : String
  Repositories : List repository
  RepositoriesUpdatedAt : Time
deriving DecidableEq

/-- The mutable fields of `App` (src/app.go lines 45-51): the cached
installation list and its refresh timestamp.  `gen` is instrumentation
(not a Go field): it counts wholesale replacements of the `installs`
slice and so models slice-pointer identity, see the file comment. -/
structure AppState where
  installs : List installation
  installsUpdatedAt : Time
  gen : Nat
deriving DecidableEq

/-- A recorded remote call, with the arguments the code passes:
`listInst perPage page`, `mint installationID repositoryIDs permissions`,
`listRepos tokenString perPage page`. -/
inductive RemoteCall where
  | listInst : Nat → Nat → RemoteCall
  | mint : Int → List Int → InstallationPermissions → RemoteCall
  | listRepos : String → Nat → Nat → RemoteCall
deriving DecidableEq

/-- Recognizer for repository-listing remote calls. -/
def RemoteCall.isListRepos : RemoteCall → Bool
  | .listRepos _ _ _ => true
  | _ => false

/-- Execution state threaded through the embedded code: the `App` state,
the clock tick counter, and the chronological log of remote calls.  The
tick counter and the log are instrumentation; `s` is the program state. -/
structure Exec where
  s : AppState
  tick : Nat
  log : List RemoteCall
deriving DecidableEq

/-- Errors the engine returns.  `remote e` is a remote error returned
verbatim (src/app.go lines 113-114 and 176-177), `tokenCreateFailed e`
is the `fmt.Errorf("failed to create token: %s", err)` wrapper
(src/app.go line 84), and `installationNotFound key` is
`ErrInstallationNotFound(key)` (src/app.go lines 99, 147, 202-207). -/
inductive AppError where
  | remote : String → AppError
  | tokenCreateFailed : String → AppError
  | installationNotFound : String → AppError
deriving DecidableEq

/-- The `Error()` string of each error (src/app.go lines 84, 205-207);
remote errors carry their own message through unchanged. -/
def AppError.message : AppError → String
  | .remote e => e
  | .tokenCreateFailed e => "failed to create token: " ++ e
  | .installationNotFound k => "installation not found: \x27" ++ k ++ "\x27"

/-- The environment: the ambient clock and the three abstract remote
operations (§6 of the spec), plus the configured refresh interval
(`App.updateInterval`, set to one minute by `New`, src/app.go line 40 --
its magnitude is irrelevant to the claims).  A paginated listing takes
the per-page size and the page cursor and returns the items plus the
next-page cursor, `0` meaning no further page. -/
structure World where
  clock : Nat → Time
  updateInterval : Time
  listInstallations : Nat → Nat → Except String (List GhInstallation × Nat)
  createInstallationToken : Int → List Int → InstallationPermissions → Except String InstallationToken
  listRepos : String → Nat → Nat → Except String (List GhRepository × Nat)

/-- Result of running a piece of the embedded code; see the file
comment. -/
inductive Res (α : Type) where
  | ok : α → Res α
  | err : AppError → Res α
  | crash : Res α
  | diverge : Res α
deriving DecidableEq

/-- Sequencing: Go early-`return` on error, modelled by propagating any
non-`ok` outcome together with the execution state at that point. -/
def bindR {α β : Type} (x : Res α × Exec) (f : α → Exec → Res β × Exec) : Res β × Exec :=
  match x with
  | (Res.ok a, ex) => f a ex
  | (Res.err e, ex) => (Res.err e, ex)
  | (Res.crash, ex) => (Res.crash, ex)
  | (Res.diverge, ex) => (Res.diverge, ex)

/-- Result of a pagination loop: the concatenated items (on success) or
the first error, together with the list of page cursors actually
requested, in request order. -/
inductive FetchRes (α : Type) where
  | ok : List α → List Nat → FetchRes α
  | err : String → List Nat → FetchRes α
  | diverge : List Nat → FetchRes α
deriving DecidableEq

/-- The page cursors a pagination loop requested, in request order. -/
def FetchRes.pages {α : Type} : FetchRes α → List Nat
  | .ok _ p => p
  | .err _ p => p
  | .diverge p => p

/-- The shared pagination loop shape of `updateInstallations`
(src/app.go lines 111-126) and `updateRepositories` (lines 174-189):
request a page, append its items, stop when the response carries
`NextPage == 0`, otherwise continue from the returned cursor.  `fuel`
bounds the number of iterations; exhaustion yields `diverge`. -/
def fetchPages {α : Type} (call : Nat → Except String (List α × Nat)) : Nat → Nat → FetchRes α
  | 0, _ => FetchRes.diverge []
  | fuel+1, page =>
    match call page with
    | Except.error e => FetchRes.err e [page]
    | Except.ok (items, next) =>
      if next = 0 then FetchRes.ok items [page]
      else
        match fetchPages call fuel next with
        | FetchRes.ok rest pages => FetchRes.ok (items ++ rest) (page :: pages)
        | FetchRes.err e pages => FetchRes.err e (page :: pages)
        | FetchRes.diverge pages => FetchRes.diverge (page :: pages)

/-- Models `strings.ToLower` (ASCII simple case mapping), defined by
structural recursion over the characters so that concrete runs reduce in
the kernel. -/
def strToLower (s : String) : String := String.mk (s.data.map Char.toLower)

/-- Conversion of a fetched installation into a cache entry (src/app.go
lines 117-120): the ID is kept, the account login is lower-cased, and
the zero values give an empty repository list with zero timestamp. -/
def mkInstallation (gi : GhInstallation) : installation :=
  { ID := gi.id, Owner := strToLower gi.login, Repositories := [], RepositoriesUpdatedAt := 0 }

/-- Conversion of a fetched repository into a cache entry (src/app.go
lines 180-183). -/
def mkRepository (gr : GhRepository) : repository :=
  { ID := gr.id, Name := gr.name }

/-- Embeds `App.updateInstallations` (src/app.go lines 103-130): skip
when `installsUpdatedAt + updateInterval > now`; otherwise fetch all
pages (page size 10, starting cursor 0) into a local list and, only on
full success, swap in the new list together with a fresh timestamp. -/
def updateInstallations (w : World) (pfuel : Nat) (ex : Exec) : Res Unit × Exec :=
  if ex.s.installsUpdatedAt + w.updateInterval > w.clock ex.tick then
    (Res.ok (), { ex with tick := ex.tick + 1 })
  else
    match fetchPages (fun page => w.listInstallations 10 page) pfuel 0 with
    | FetchRes.ok gis pages =>
      (Res.ok (),
        { s := { installs := gis.map mkInstallation
               , installsUpdatedAt := w.clock (ex.tick + 1)
               , gen := ex.s.gen + 1 }
        , tick := ex.tick + 2
        , log := ex.log ++ pages.map (fun p => RemoteCall.listInst 10 p) })
    | FetchRes.err e pages =>
      (Res.err (AppError.remote e),
        { ex with tick := ex.tick + 1, log := ex.log ++ pages.map (fun p => RemoteCall.listInst 10 p) })
    | FetchRes.diverge pages =>
      (Res.diverge,
        { ex with tick := ex.tick + 1, log := ex.log ++ pages.map (fun p => RemoteCall.listInst 10 p) })

/-- Embeds `App.getInstallationID` (src/app.go lines 90-100): refresh,
then return the ID of the first cached installation whose `Owner` equals
the key exactly; otherwise `ErrInstallationNotFound(owner)`. -/
def getInstallationID (w : World) (pfuel : Nat) (owner : String) (ex : Exec) : Res Int × Exec :=
  bindR (updateInstallations w pfuel ex) (fun _ ex2 =>
    match ex2.s.installs.find? (fun i => i.Owner == owner) with
    | some i => (Res.ok i.ID, ex2)
    | none => (Res.err (AppError.installationNotFound owner), ex2))

/-- The nested scan of `App.getRepositoryID` (src/app.go lines 137-145):
first repository, in list order, belonging to an installation whose
`Owner` matches, with a matching `Name`; the outer loop does not break
after a matching owner, so a later owner-matching installation is also
searched. -/
def findRepoID : List installation → String → String → Option Int
  | [], _, _ => none
  | i :: rest, owner, repo =>
    match (if i.Owner == owner then i.Repositories.find? (fun r => r.Name == repo) else none) with
    | some r => some r.ID
    | none => findRepoID rest owner repo

/-- The scan at the top of `App.updateRepositories` (src/app.go lines
152-157): `i` ends up pointing at the last installation whose `Owner`
matches (the loop does not break), or stays nil.  Returns the index and
the entry. -/
def lastOwnerFind : List installation → String → Option (Nat × installation)
  | [], _ => none
  | i :: rest, owner =>
    match lastOwnerFind rest owner with
    | some (n, j) => some (n + 1, j)
    | none => if i.Owner == owner then some (0, i) else none

/-- The write through the captured pointer (src/app.go line 191): replace
the `Repositories` and `RepositoriesUpdatedAt` fields of the entry at the
given index, leaving everything else in place. -/
def writeRepos : List installation → Nat → List repository → Time → List installation
  | [], _, _, _ => []
  | i :: rest, 0, repos, ts => { i with Repositories := repos, RepositoriesUpdatedAt := ts } :: rest
  | i :: rest, n+1, repos, ts => i :: writeRepos rest n repos ts

/-- The token mint at the end of `App.CreateInstallationToken`
(src/app.go lines 82-86): one remote `CreateInstallationToken` call with
the resolved installation ID, the accumulated repository IDs and the
supplied permissions; a failure is wrapped as
`fmt.Errorf("failed to create token: %s", err)`. -/
def mintToken (w : World) (installationID : Int) (ids : List Int) (permissions : InstallationPermissions) (ex : Exec) : Res InstallationToken × Exec :=
  match w.createInstallationToken installationID ids permissions with
  | Except.error e =>
    (Res.err (AppError.tokenCreateFailed e),
      { ex with log := ex.log ++ [RemoteCall.mint installationID ids permissions] })
  | Except.ok tok =>
    (Res.ok tok,
      { ex with log := ex.log ++ [RemoteCall.mint installationID ids permissions] })

/-- The repository resolution loop of `App.CreateInstallationToken`
(src/app.go lines 75-81): resolve each name in order with the supplied
step function, append the IDs in order, and return on the first error. -/
def resolveList (step : String → Exec → Res Int × Exec) : List String → Exec → Res (List Int) × Exec
  | [], ex => (Res.ok [], ex)
  | repo :: rest, ex =>
    bindR (step repo ex) (fun id ex2 =>
      bindR (resolveList step rest ex2) (fun ids ex3 =>
        (Res.ok (id :: ids), ex3)))

/-- One stratum of the mutually recursive trio `CreateInstallationToken`
/ `getRepositoryID` / `updateRepositories`. -/
structure Funs where
  cit : String → List String → InstallationPermissions → Exec → Res InstallationToken × Exec
  grid : String → String → Exec → Res Int × Exec
  ur : String → Exec → Res Unit × Exec

/-- Base stratum: out of recursion fuel. -/
def divergeFuns : Funs :=
  { cit := fun _ _ _ ex => (Res.diverge, ex)
  , grid := fun _ _ ex => (Res.diverge, ex)
  , ur := fun _ ex => (Res.diverge, ex) }

/-- Body of `App.CreateInstallationToken` (src/app.go lines 67-87):
resolve the installation, resolve each repository name in order
(fail-fast), then mint the token.  `grid` is the `getRepositoryID`
callee at the previous stratum. -/
def citBody (w : World) (pfuel : Nat) (grid : String → String → Exec → Res Int × Exec)
    (owner : String) (repos : List String) (permissions : InstallationPermissions) (ex : Exec) :
    Res InstallationToken × Exec :=
  bindR (getInstallationID w pfuel owner ex) (fun installationID ex2 =>
    bindR (resolveList (fun repo ex3 => grid owner repo ex3) repos ex2) (fun ids ex4 =>
      mintToken w installationID ids permissions ex4))

/-- Body of `App.getRepositoryID` (src/app.go lines 133-148): refresh the
repository list for the owner, then scan the nested lists; a miss is
`ErrInstallationNotFound("<owner>/<repo>")`.  `ur` is the
`updateRepositories` callee at the previous stratum. -/
def gridBody (ur : String → Exec → Res Unit × Exec)
    (owner : String) (repo : String) (ex : Exec) : Res Int × Exec :=
  bindR (ur owner ex) (fun _ ex2 =>
    match findRepoID ex2.s.installs owner repo with
    | some id => (Res.ok id, ex2)
    | none => (Res.err (AppError.installationNotFound (owner ++ "/" ++ repo)), ex2))

/-- Second half of `App.updateRepositories` (src/app.go lines 168-192),
entered with the bootstrap token `tok`: page through the repositories
visible to the token (page size 100, cursor start 0) and, on full
success, write the new list together with a fresh timestamp through the
pointer captured by the scan (index `idx`) -- the write reaches the
cache only if the installation slice was not replaced in the meantime,
that is, only if the generation still equals `g0`; the final clock read
on line 191 happens in both cases. -/
def urFetch (w : World) (pfuel : Nat) (idx : Nat) (g0 : Nat) (tok : InstallationToken)
    (ex2 : Exec) : Res Unit × Exec :=
  match fetchPages (fun page => w.listRepos tok.token 100 page) pfuel 0 with
  | FetchRes.ok grs pages =>
    if ex2.s.gen = g0 then
      (Res.ok (),
        { s := { installs := writeRepos ex2.s.installs idx (grs.map mkRepository) (w.clock ex2.tick)
               , installsUpdatedAt := ex2.s.installsUpdatedAt
               , gen := ex2.s.gen }
        , tick := ex2.tick + 1
        , log := ex2.log ++ pages.map (fun p => RemoteCall.listRepos tok.token 100 p) })
    else
      (Res.ok (),
        { ex2 with tick := ex2.tick + 1
                 , log := ex2.log ++ pages.map (fun p => RemoteCall.listRepos tok.token 100 p) })
  | FetchRes.err e pages =>
    (Res.err (AppError.remote e),
      { ex2 with log := ex2.log ++ pages.map (fun p => RemoteCall.listRepos tok.token 100 p) })
  | FetchRes.diverge pages =>
    (Res.diverge,
      { ex2 with log := ex2.log ++ pages.map (fun p => RemoteCall.listRepos tok.token 100 p) })

/-- First half of `App.updateRepositories` (src/app.go lines 151-166):
scan for the (last) installation whose owner matches, dereferencing nil
on a miss; skip when its repository timestamp is fresh; otherwise mint a
bootstrap token via `CreateInstallationToken(owner, nil,
&InstallationPermissions{})` at the previous stratum (`cit`) and
continue with `urFetch`. -/
def urBody (w : World) (pfuel : Nat)
    (cit : String → List String → InstallationPermissions → Exec → Res InstallationToken × Exec)
    (owner : String) (ex : Exec) : Res Unit × Exec :=
  match lastOwnerFind ex.s.installs owner with
  | none => (Res.crash, ex)
  | some (idx, inst) =>
    if inst.RepositoriesUpdatedAt + w.updateInterval > w.clock ex.tick then
      (Res.ok (), { ex with tick := ex.tick + 1 })
    else
      bindR (cit owner [] emptyPermissions { ex with tick := ex.tick + 1 })
        (urFetch w pfuel idx ex.s.gen)

/-- One unfolding of the mutual recursion: each embedded body calls the
other functions at the previous stratum, so the stratum index is
recursion fuel for the mutual call chain CreateInstallationToken →
getRepositoryID → updateRepositories → CreateInstallationToken. -/
def stepFuns (w : World) (pfuel : Nat) (prev : Funs) : Funs :=
  { cit := citBody w pfuel prev.grid
  , grid := gridBody prev.ur
  , ur := urBody w pfuel prev.cit }

/-- The stratified mutual recursion: stratum `fuel` allows `fuel` nested
mutual calls before giving up with `diverge`. -/
def funsAt (w : World) (pfuel : Nat) : Nat → Funs
  | 0 => divergeFuns
  | fuel+1 => stepFuns w pfuel (funsAt w pfuel fuel)

/-- `App.CreateInstallationToken` (src/app.go lines 67-87).  Stratum 4
suffices for the whole chain CreateInstallationToken → getRepositoryID →
updateRepositories → CreateInstallationToken(empty), as the
stabilization theorem for claim C4 proves. -/
def CreateInstallationToken (w : World) (pfuel : Nat) : String → List String → InstallationPermissions → Exec → Res InstallationToken × Exec :=
  (funsAt w pfuel 4).cit

/-- `App.getRepositoryID` (src/app.go lines 133-148) at adequate
stratum. -/
def getRepositoryID (w : World) (pfuel : Nat) : String → String → Exec → Res Int × Exec :=
  (funsAt w pfuel 3).grid

/-- `App.updateRepositories` (src/app.go lines 151-193) at adequate
stratum. -/
def updateRepositories (w : World) (pfuel : Nat) : String → Exec → Res Unit × Exec :=
  (funsAt w pfuel 2).ur

/-- Some installation in the cached list carries this owner key. -/
def hasOwner (owner : String) (s : AppState) : Bool :=
  s.installs.any (fun i => i.Owner == owner)

/-- Pointwise resolution of a list of repository names to a list of IDs
against a fixed cache: same length, and position by position the scan
`findRepoID` yields exactly that ID (duplicates allowed, order
positional). -/
def ResolvesTo (installs : List installation) (owner : String) :
    List String → List Int → Prop
  | [], [] => True
  | r :: rs, id :: ids => findRepoID installs owner r = some id ∧ ResolvesTo installs owner rs ids
  | [], _ :: _ => False
  | _ :: _, [] => False

/-- A successful cursor chain for a pagination loop: `(p, items) :: seg`
states that requesting page `p` returns `items` with next-cursor the
first page of `seg` (each intermediate cursor nonzero), the last page
returning next-cursor `0`. -/
def Chain {α : Type} (call : Nat → Except String (List α × Nat)) : List (Nat × List α) → Prop
  | [] => True
  | [(p, items)] => call p = Except.ok (items, 0)
  | (p, items) :: (q, items2) :: rest =>
      call p = Except.ok (items, q) ∧ q ≠ 0 ∧ Chain call ((q, items2) :: rest)

/-! ## Concrete fixtures for witnesses and counterexamples -/

/-- A cached installation for owner `acme` as a refresh stores it. -/
def instAcme : installation :=
  { ID := 7, Owner := "acme", Repositories := [], RepositoriesUpdatedAt := 0 }

/-- Environment: constant clock 100, interval 1, one installation page
with login `Acme`, a mint that succeeds, one repository page. -/
def wA : World :=
  { clock := fun _ => 100
  , updateInterval := 1
  , listInstallations := fun _ _ => Except.ok ([{ id := 7, login := "Acme" }], 0)
  , createInstallationToken := fun _ _ _ => Except.ok { token := "tok" }
  , listRepos := fun _ _ _ => Except.ok ([{ id := 100, name := "infra" }], 0) }

/-- The empty starting state: no cached installations, zero timestamps. -/
def ex0 : Exec := { s := { installs := [], installsUpdatedAt := 0, gen := 0 }, tick := 0, log := [] }

/-- First fetched installation of the two-page environment `wPages`. -/
def giAlpha : GhInstallation := { id := 1, login := "Alpha" }

/-- Second fetched installation of the two-page environment `wPages`. -/
def giBeta : GhInstallation := { id := 2, login := "Beta" }

/-- Environment whose installation listing fails. -/
def wErr : World :=
  { clock := fun _ => 100
  , updateInterval := 1
  , listInstallations := fun _ _ => Except.error ("boom")
  , createInstallationToken := fun _ _ _ => Except.ok { token := "tok" }
  , listRepos := fun _ _ _ => Except.ok ([], 0) }

/-- Environment whose repository listing fails while everything else
succeeds. -/
def wRepoErr : World :=
  { clock := fun _ => 100
  , updateInterval := 1
  , listInstallations := fun _ _ => Except.ok ([{ id := 7, login := "Acme" }], 0)
  , createInstallationToken := fun _ _ _ => Except.ok { token := "tok" }
  , listRepos := fun _ _ _ => Except.error ("boom") }

/-- A state whose installation list and repository list are both stale
(timestamps far older than the clock), with one cached repository. -/
def exStale : Exec :=
  { s := { installs := [{ ID := 7, Owner := "acme"
                        , Repositories := [{ ID := 1, Name := "repoA" }]
                        , RepositoriesUpdatedAt := 10 }]
         , installsUpdatedAt := 0, gen := 0 }
  , tick := 0, log := [] }

/-- A fully fresh state: installation list and the repository cache of
`acme` (repoA:1, repoB:2, repoC:3) both carry timestamp 100 = now. -/
def exFresh : Exec :=
  { s := { installs := [{ ID := 7, Owner := "acme"
                        , Repositories := [{ ID := 1, Name := "repoA" }
                                          , { ID := 2, Name := "repoB" }
                                          , { ID := 3, Name := "repoC" }]
                        , RepositoriesUpdatedAt := 100 }]
         , installsUpdatedAt := 100, gen := 0 }
  , tick := 0, log := [] }

/-- Environment with a two-page installation listing (cursor chain
0 → 5 → stop) and a two-page repository listing (cursor chain
0 → 3 → stop). -/
def wPages : World :=
  { clock := fun _ => 100
  , updateInterval := 1
  , listInstallations := fun _ page =>
      if page = 5 then Except.ok ([{ id := 2, login := "Beta" }], 0)
      else Except.ok ([{ id := 1, login := "Alpha" }], 5)
  , createInstallationToken := fun _ _ _ => Except.ok { token := "tok" }
  , listRepos := fun _ _ page =>
      if page = 3 then Except.ok ([{ id := 12, name := "two" }], 0)
      else Except.ok ([{ id := 11, name := "one" }], 3) }

/-- Environment whose token mint fails. -/
def wMintErr : World :=
  { clock := fun _ => 100
  , updateInterval := 1
  , listInstallations := fun _ _ => Except.ok ([{ id := 7, login := "Acme" }], 0)
  , createInstallationToken := fun _ _ _ => Except.error ("denied")
  , listRepos := fun _ _ _ => Except.ok ([], 0) }

/-! ## Helper lemmas -/

theorem bindR_ok {α β : Type} (a : α) (ex : Exec) (f : α → Exec → Res β × Exec) :
    bindR (Res.ok a, ex) f = f a ex := rfl

theorem bindR_err {α β : Type} (e : AppError) (ex : Exec) (f : α → Exec → Res β × Exec) :
    bindR (Res.err e, ex) f = (Res.err e, ex) := rfl

theorem bindR_crash {α β : Type} (ex : Exec) (f : α → Exec → Res β × Exec) :
    bindR (Res.crash, ex) f = (Res.crash, ex) := rfl

theorem bindR_diverge {α β : Type} (ex : Exec) (f : α → Exec → Res β × Exec) :
    bindR (Res.diverge, ex) f = (Res.diverge, ex) := rfl

theorem updateInstallations_skip (w : World) (pf : Nat) (ex : Exec)
    (h : ex.s.installsUpdatedAt + w.updateInterval > w.clock ex.tick) :
    updateInstallations w pf ex = (Res.ok (), { ex with tick := ex.tick + 1 }) := by
  unfold updateInstallations
  rw [if_pos h]

theorem updateInstallations_refresh_ok (w : World) (pf : Nat) (ex : Exec)
    (gis : List GhInstallation) (pages : List Nat)
    (h : ¬ ex.s.installsUpdatedAt + w.updateInterval > w.clock ex.tick)
    (hf : fetchPages (fun page => w.listInstallations 10 page) pf 0 = FetchRes.ok gis pages) :
    updateInstallations w pf ex =
      (Res.ok (),
        { s := { installs := gis.map mkInstallation
               , installsUpdatedAt := w.clock (ex.tick + 1)
               , gen := ex.s.gen + 1 }
        , tick := ex.tick + 2
        , log := ex.log ++ pages.map (fun p => RemoteCall.listInst 10 p) }) := by
  unfold updateInstallations
  rw [if_neg h, hf]

theorem updateInstallations_refresh_err (w : World) (pf : Nat) (ex : Exec)
    (e : String) (pages : List Nat)
    (h : ¬ ex.s.installsUpdatedAt + w.updateInterval > w.clock ex.tick)
    (hf : fetchPages (fun page => w.listInstallations 10 page) pf 0 = FetchRes.err e pages) :
    updateInstallations w pf ex =
      (Res.err (AppError.remote e),
        { ex with tick := ex.tick + 1
                , log := ex.log ++ pages.map (fun p => RemoteCall.listInst 10 p) }) := by
  unfold updateInstallations
  rw [if_neg h, hf]

theorem updateInstallations_refresh_diverge (w : World) (pf : Nat) (ex : Exec)
    (pages : List Nat)
    (h : ¬ ex.s.installsUpdatedAt + w.updateInterval > w.clock ex.tick)
    (hf : fetchPages (fun page => w.listInstallations 10 page) pf 0 = FetchRes.diverge pages) :
    updateInstallations w pf ex =
      (Res.diverge,
        { ex with tick := ex.tick + 1
                , log := ex.log ++ pages.map (fun p => RemoteCall.listInst 10 p) }) := by
  unfold updateInstallations
  rw [if_neg h, hf]

theorem updateInstallations_cases (w : World) (pf : Nat) (ex : Exec) :
    (ex.s.installsUpdatedAt + w.updateInterval > w.clock ex.tick
      ∧ updateInstallations w pf ex = (Res.ok (), { ex with tick := ex.tick + 1 }))
    ∨ (¬ ex.s.installsUpdatedAt + w.updateInterval > w.clock ex.tick
      ∧ ((∃ gis pages,
            fetchPages (fun page => w.listInstallations 10 page) pf 0 = FetchRes.ok gis pages
            ∧ updateInstallations w pf ex =
                (Res.ok (),
                  { s := { installs := gis.map mkInstallation
                         , installsUpdatedAt := w.clock (ex.tick + 1)
                         , gen := ex.s.gen + 1 }
                  , tick := ex.tick + 2
                  , log := ex.log ++ pages.map (fun p => RemoteCall.listInst 10 p) }))
        ∨ (∃ e pages,
            fetchPages (fun page => w.listInstallations 10 page) pf 0 = FetchRes.err e pages
            ∧ updateInstallations w pf ex =
                (Res.err (AppError.remote e),
                  { ex with tick := ex.tick + 1
                          , log := ex.log ++ pages.map (fun p => RemoteCall.listInst 10 p) }))
        ∨ (∃ pages,
            fetchPages (fun page => w.listInstallations 10 page) pf 0 = FetchRes.diverge pages
            ∧ updateInstallations w pf ex =
                (Res.diverge,
                  { ex with tick := ex.tick + 1
                          , log := ex.log ++ pages.map (fun p => RemoteCall.listInst 10 p) })))) := by
  by_cases h : ex.s.installsUpdatedAt + w.updateInterval > w.clock ex.tick
  · exact Or.inl ⟨h, updateInstallations_skip w pf ex h⟩
  · refine Or.inr ⟨h, ?_⟩
    rcases hf : fetchPages (fun page => w.listInstallations 10 page) pf 0 with ⟨gis, pages⟩ | ⟨e, pages⟩ | ⟨pages⟩
    · exact Or.inl ⟨gis, pages, rfl, updateInstallations_refresh_ok w pf ex gis pages h hf⟩
    · exact Or.inr (Or.inl ⟨e, pages, rfl, updateInstallations_refresh_err w pf ex e pages h hf⟩)
    · exact Or.inr (Or.inr ⟨pages, rfl, updateInstallations_refresh_diverge w pf ex pages h hf⟩)

theorem updateInstallations_not_crash (w : World) (pf : Nat) (ex : Exec) :
    (updateInstallations w pf ex).1 ≠ Res.crash := by
  rcases updateInstallations_cases w pf ex with ⟨h, hs⟩ | ⟨h, ⟨g, p, hf, hs⟩ | ⟨e, p, hf, hs⟩ | ⟨p, hf, hs⟩⟩ <;>
    rw [hs] <;> simp

theorem updateInstallations_state_cases (w : World) (pf : Nat) (ex : Exec) :
    (updateInstallations w pf ex).2.s = ex.s
    ∨ ∀ i ∈ (updateInstallations w pf ex).2.s.installs,
        i.Repositories = [] ∧ i.RepositoriesUpdatedAt = 0 := by
  rcases updateInstallations_cases w pf ex with ⟨h, hs⟩ | ⟨h, ⟨g, p, hf, hs⟩ | ⟨e, p, hf, hs⟩ | ⟨p, hf, hs⟩⟩
  · rw [hs]; exact Or.inl rfl
  · rw [hs]
    refine Or.inr ?_
    intro i hi
    simp only [List.mem_map] at hi
    rcases hi with ⟨gi, _, rfl⟩
    exact ⟨rfl, rfl⟩
  · rw [hs]; exact Or.inl rfl
  · rw [hs]; exact Or.inl rfl

theorem find?_owner_mem {l : List installation} {o : String} {i : installation}
    (h : l.find? (fun j => j.Owner == o) = some i) : i ∈ l ∧ i.Owner = o := by
  refine ⟨List.mem_of_find?_eq_some h, ?_⟩
  have hp := List.find?_some h
  simpa using hp

theorem getInstallationID_ok_inv {w : World} {pf : Nat} {o : String} {ex : Exec}
    {id : Int} {ex2 : Exec}
    (h : getInstallationID w pf o ex = (Res.ok id, ex2)) :
    updateInstallations w pf ex = (Res.ok (), ex2)
    ∧ ∃ i, ex2.s.installs.find? (fun j => j.Owner == o) = some i ∧ i.ID = id := by
  unfold getInstallationID at h
  rcases hu : updateInstallations w pf ex with ⟨r, ex1⟩
  rw [hu] at h
  cases r with
  | ok u =>
    cases u
    rw [bindR_ok] at h
    rcases hf : ex1.s.installs.find? (fun j => j.Owner == o) with _ | i
    · rw [hf] at h
      simp at h
    · rw [hf] at h
      rw [Prod.mk.injEq, Res.ok.injEq] at h
      rcases h with ⟨hid, hex⟩
      subst hex
      subst hid
      exact ⟨rfl, i, hf, rfl⟩
  | err e => rw [bindR_err] at h; simp at h
  | crash => rw [bindR_crash] at h; simp at h
  | diverge => rw [bindR_diverge] at h; simp at h

theorem getInstallationID_ok_owner {w : World} {pf : Nat} {o : String} {ex : Exec}
    {id : Int} {ex2 : Exec}
    (h : getInstallationID w pf o ex = (Res.ok id, ex2)) :
    ∃ i, i ∈ ex2.s.installs ∧ i.Owner = o ∧ i.ID = id := by
  rcases getInstallationID_ok_inv h with ⟨-, i, hf, hid⟩
  rcases find?_owner_mem hf with ⟨hm, ho⟩
  exact ⟨i, hm, ho, hid⟩

theorem getInstallationID_not_crash (w : World) (pf : Nat) (o : String) (ex : Exec) :
    (getInstallationID w pf o ex).1 ≠ Res.crash := by
  unfold getInstallationID
  rcases hu : updateInstallations w pf ex with ⟨r, ex1⟩
  have hnc := updateInstallations_not_crash w pf ex
  rw [hu] at hnc
  cases r with
  | ok u =>
    rw [bindR_ok]
    rcases hf : ex1.s.installs.find? (fun j => j.Owner == o) with _ | i <;> simp [hf]
  | err e => rw [bindR_err]; simp
  | crash => exact absurd rfl hnc
  | diverge => rw [bindR_diverge]; simp

theorem mintToken_err {w : World} {id : Int} {ids : List Int} {p : InstallationPermissions}
    {e : String} (ex : Exec) (h : w.createInstallationToken id ids p = Except.error e) :
    mintToken w id ids p ex =
      (Res.err (AppError.tokenCreateFailed e),
        { ex with log := ex.log ++ [RemoteCall.mint id ids p] }) := by
  unfold mintToken
  rw [h]

theorem mintToken_ok {w : World} {id : Int} {ids : List Int} {p : InstallationPermissions}
    {tok : InstallationToken} (ex : Exec) (h : w.createInstallationToken id ids p = Except.ok tok) :
    mintToken w id ids p ex =
      (Res.ok tok, { ex with log := ex.log ++ [RemoteCall.mint id ids p] }) := by
  unfold mintToken
  rw [h]

theorem mintToken_state (w : World) (id : Int) (ids : List Int) (p : InstallationPermissions)
    (ex : Exec) :
    (mintToken w id ids p ex).2.s = ex.s ∧ (mintToken w id ids p ex).2.tick = ex.tick
    ∧ (mintToken w id ids p ex).2.log = ex.log ++ [RemoteCall.mint id ids p] := by
  unfold mintToken
  rcases h : w.createInstallationToken id ids p with e | tok <;> exact ⟨rfl, rfl, rfl⟩

theorem citBody_nil (w : World) (pf : Nat) (g : String → String → Exec → Res Int × Exec)
    (o : String) (p : InstallationPermissions) (ex : Exec) :
    citBody w pf g o [] p ex =
      bindR (getInstallationID w pf o ex) (fun id ex2 => mintToken w id [] p ex2) := rfl

theorem getInstallationID_exec (w : World) (pf : Nat) (o : String) (ex : Exec) :
    (getInstallationID w pf o ex).2 = (updateInstallations w pf ex).2 := by
  unfold getInstallationID
  rcases hu : updateInstallations w pf ex with ⟨r, ex1⟩
  cases r with
  | ok u =>
    rw [bindR_ok]
    try dsimp only
    rcases hf : ex1.s.installs.find? (fun j => j.Owner == o) with _ | i <;> rw [hf]
  | err e => rw [bindR_err]
  | crash => rw [bindR_crash]
  | diverge => rw [bindR_diverge]

theorem citBody_nil_state (w : World) (pf : Nat) (g : String → String → Exec → Res Int × Exec)
    (o : String) (p : InstallationPermissions) (ex : Exec) :
    (citBody w pf g o [] p ex).2.s = (updateInstallations w pf ex).2.s := by
  rw [citBody_nil]
  rcases hg : getInstallationID w pf o ex with ⟨r, ex1⟩
  have hx : ex1.s = (updateInstallations w pf ex).2.s := by
    have h2 := getInstallationID_exec w pf o ex
    rw [hg] at h2
    exact congrArg Exec.s h2
  cases r with
  | ok id =>
    rw [bindR_ok]
    rw [(mintToken_state w id [] p ex1).1]
    exact hx
  | err e => rw [bindR_err]; exact hx
  | crash => rw [bindR_crash]; exact hx
  | diverge => rw [bindR_diverge]; exact hx

theorem updateRepositories_def (w : World) (pf : Nat) (o : String) (ex : Exec) :
    updateRepositories w pf o ex = urBody w pf (funsAt w pf 1).cit o ex := rfl

theorem urBody_none (w : World) (pf : Nat)
    (cit : String → List String → InstallationPermissions → Exec → Res InstallationToken × Exec)
    {o : String} {ex : Exec}
    (hscan : lastOwnerFind ex.s.installs o = none) :
    urBody w pf cit o ex = (Res.crash, ex) := by
  unfold urBody
  rw [hscan]

theorem urBody_skip (w : World) (pf : Nat)
    (cit : String → List String → InstallationPermissions → Exec → Res InstallationToken × Exec)
    {o : String} {ex : Exec} {idx : Nat} {inst : installation}
    (hscan : lastOwnerFind ex.s.installs o = some (idx, inst))
    (hgate : inst.RepositoriesUpdatedAt + w.updateInterval > w.clock ex.tick) :
    urBody w pf cit o ex = (Res.ok (), { ex with tick := ex.tick + 1 }) := by
  unfold urBody
  rw [hscan]
  try dsimp only
  rw [if_pos hgate]

theorem urBody_refresh (w : World) (pf : Nat)
    (cit : String → List String → InstallationPermissions → Exec → Res InstallationToken × Exec)
    {o : String} {ex : Exec} {idx : Nat} {inst : installation}
    (hscan : lastOwnerFind ex.s.installs o = some (idx, inst))
    (hgate : ¬ inst.RepositoriesUpdatedAt + w.updateInterval > w.clock ex.tick) :
    urBody w pf cit o ex =
      bindR (cit o [] emptyPermissions { ex with tick := ex.tick + 1 })
        (urFetch w pf idx ex.s.gen) := by
  unfold urBody
  rw [hscan]
  try dsimp only
  rw [if_neg hgate]

theorem urFetch_err {w : World} {pf : Nat} {idx g0 : Nat} {tok : InstallationToken}
    {e : String} {pages : List Nat} (ex2 : Exec)
    (hf : fetchPages (fun page => w.listRepos tok.token 100 page) pf 0 = FetchRes.err e pages) :
    urFetch w pf idx g0 tok ex2 =
      (Res.err (AppError.remote e),
        { ex2 with log := ex2.log ++ pages.map (fun p => RemoteCall.listRepos tok.token 100 p) }) := by
  unfold urFetch
  rw [hf]

theorem urFetch_diverge {w : World} {pf : Nat} {idx g0 : Nat} {tok : InstallationToken}
    {pages : List Nat} (ex2 : Exec)
    (hf : fetchPages (fun page => w.listRepos tok.token 100 page) pf 0 = FetchRes.diverge pages) :
    urFetch w pf idx g0 tok ex2 =
      (Res.diverge,
        { ex2 with log := ex2.log ++ pages.map (fun p => RemoteCall.listRepos tok.token 100 p) }) := by
  unfold urFetch
  rw [hf]

theorem urFetch_ok_write {w : World} {pf : Nat} {idx g0 : Nat} {tok : InstallationToken}
    {grs : List GhRepository} {pages : List Nat} (ex2 : Exec)
    (hf : fetchPages (fun page => w.listRepos tok.token 100 page) pf 0 = FetchRes.ok grs pages)
    (hg : ex2.s.gen = g0) :
    urFetch w pf idx g0 tok ex2 =
      (Res.ok (),
        { s := { installs := writeRepos ex2.s.installs idx (grs.map mkRepository) (w.clock ex2.tick)
               , installsUpdatedAt := ex2.s.installsUpdatedAt
               , gen := ex2.s.gen }
        , tick := ex2.tick + 1
        , log := ex2.log ++ pages.map (fun p => RemoteCall.listRepos tok.token 100 p) }) := by
  unfold urFetch
  rw [hf]
  try dsimp only
  rw [if_pos hg]

theorem urFetch_ok_stale {w : World} {pf : Nat} {idx g0 : Nat} {tok : InstallationToken}
    {grs : List GhRepository} {pages : List Nat} (ex2 : Exec)
    (hf : fetchPages (fun page => w.listRepos tok.token 100 page) pf 0 = FetchRes.ok grs pages)
    (hg : ¬ ex2.s.gen = g0) :
    urFetch w pf idx g0 tok ex2 =
      (Res.ok (),
        { ex2 with tick := ex2.tick + 1
                 , log := ex2.log ++ pages.map (fun p => RemoteCall.listRepos tok.token 100 p) }) := by
  unfold urFetch
  rw [hf]
  try dsimp only
  rw [if_neg hg]

/-! ## Claim C1 -/

/-- Claim C1 as stated is false on the code: only the stored login is
lower-cased (src/app.go line 119); the lookup key is compared exactly
(line 95), so the mixed-case key `Acme` -- whose lower-casing equals the
lower-casing of the fetched login `Acme` -- fails to resolve even though
the run fetched that very installation (stored as owner `acme`, ID 7),
while the already-lower-case key `acme` resolves. -/
theorem C1_counterexample :
    strToLower ("Acme") = strToLower ("Acme")
    ∧ (getInstallationID wA 2 ("Acme") ex0).2.s.installs = [instAcme]
    ∧ (getInstallationID wA 2 ("Acme") ex0).1 = Res.err (AppError.installationNotFound ("Acme"))
    ∧ (getInstallationID wA 2 ("acme") ex0).1 = Res.ok 7 := by
  exact ⟨rfl, by decide, by decide, by decide⟩

/-- Claim C1 (amended): the stored login is normalized to lower case at
refresh time, but the lookup key is not normalized -- matching is an
exact string comparison against the lower-cased stored login.  So (1) a
successful lookup always returns the ID of a cached installation whose
stored owner is literally the queried key, (2) a key equal to a stored
(lower-cased) owner resolves to that entry via the first match, and (3)
every cache entry stores the lower-casing of the fetched login. -/
theorem C1_owner_matching_case_sensitive :
    (∀ (w : World) (pf : Nat) (k : String) (ex : Exec) (id : Int) (ex2 : Exec),
        getInstallationID w pf k ex = (Res.ok id, ex2) →
        ∃ i, i ∈ ex2.s.installs ∧ i.Owner = k ∧ i.ID = id)
    ∧ (∀ (w : World) (pf : Nat) (k : String) (ex : Exec) (ex2 : Exec) (i : installation),
        updateInstallations w pf ex = (Res.ok (), ex2) →
        ex2.s.installs.find? (fun j => j.Owner == k) = some i →
        getInstallationID w pf k ex = (Res.ok i.ID, ex2))
    ∧ (∀ gi : GhInstallation, (mkInstallation gi).Owner = strToLower gi.login) := by
  refine ⟨?_, ?_, fun gi => rfl⟩
  · intro w pf k ex id ex2 h
    exact getInstallationID_ok_owner h
  · intro w pf k ex ex2 i hu hf
    unfold getInstallationID
    rw [hu, bindR_ok, hf]

/-- Witness for the amended claim C1 at a concrete input: resolving the
lower-cased key `acme` after fetching login `Acme` yields an entry with
exactly that owner and ID 7. -/
theorem C1_witness :
    ∃ i, i ∈ ({ s := { installs := [instAcme], installsUpdatedAt := 100, gen := 1 }
              , tick := 2, log := [RemoteCall.listInst 10 0] } : Exec).s.installs
        ∧ i.Owner = ("acme") ∧ i.ID = 7 :=
  C1_owner_matching_case_sensitive.1 wA 2 ("acme") ex0 7 _ (by decide)

/-! ## Claim C2 -/

/-- Claim C2 as stated is false on the code for `updateRepositories`: a
repository-page error does not always leave the cache as it was, because
the nested bootstrap token mint can itself refresh the top-level
installation list (wiping every cached per-installation repository
list).  Concretely, starting from a cache whose `acme` entry holds
repoA, a run in which the repository page fetch fails returns that error
but leaves `acme` with an empty repository list. -/
theorem C2_counterexample :
    (updateRepositories wRepoErr 2 ("acme") exStale).1 = Res.err (AppError.remote ("boom"))
    ∧ exStale.s.installs.map (fun i => i.Repositories) = [[{ ID := 1, Name := "repoA" }]]
    ∧ (updateRepositories wRepoErr 2 ("acme") exStale).2.s.installs.map (fun i => i.Repositories)
        = [[]] := by
  exact ⟨by decide, by decide, by decide⟩

/-- Claim C2 (amended): `updateInstallations` is all-or-nothing -- on any
error it leaves the whole state unchanged, and on success it either
skips or replaces the list and the timestamp together.  For
`updateRepositories`, on error the repository write never happens, but
the nested bootstrap token call may have refreshed the top-level
installation list: the state on error is either exactly the pre-call
state or the freshly swapped installation list, in which every entry has
an empty repository list and zero repository timestamp. -/
theorem C2_all_or_nothing :
    (∀ (w : World) (pf : Nat) (ex : Exec) (e : AppError),
        (updateInstallations w pf ex).1 = Res.err e → (updateInstallations w pf ex).2.s = ex.s)
    ∧ (∀ (w : World) (pf : Nat) (ex : Exec),
        (updateInstallations w pf ex).1 = Res.ok () →
        (updateInstallations w pf ex).2.s = ex.s
        ∨ ∃ gis pages,
            fetchPages (fun page => w.listInstallations 10 page) pf 0 = FetchRes.ok gis pages
            ∧ (updateInstallations w pf ex).2.s.installs = gis.map mkInstallation
            ∧ (updateInstallations w pf ex).2.s.installsUpdatedAt = w.clock (ex.tick + 1))
    ∧ (∀ (w : World) (pf : Nat) (o : String) (ex : Exec) (e : AppError),
        (updateRepositories w pf o ex).1 = Res.err e →
        (updateRepositories w pf o ex).2.s = ex.s
        ∨ ∀ i ∈ (updateRepositories w pf o ex).2.s.installs,
            i.Repositories = [] ∧ i.RepositoriesUpdatedAt = 0) := by
  refine ⟨?_, ?_, ?_⟩
  · intro w pf ex e h
    rcases updateInstallations_cases w pf ex with ⟨hg, hs⟩ |
      ⟨hg, ⟨g, p, hf, hs⟩ | ⟨e2, p, hf, hs⟩ | ⟨p, hf, hs⟩⟩
    · rw [hs] at h; simp at h
    · rw [hs] at h; simp at h
    · rw [hs]
    · rw [hs] at h; simp at h
  · intro w pf ex h
    rcases updateInstallations_cases w pf ex with ⟨hg, hs⟩ |
      ⟨hg, ⟨g, p, hf, hs⟩ | ⟨e2, p, hf, hs⟩ | ⟨p, hf, hs⟩⟩
    · rw [hs]; exact Or.inl rfl
    · refine Or.inr ⟨g, p, hf, ?_, ?_⟩ <;> rw [hs]
    · rw [hs] at h; simp at h
    · rw [hs] at h; simp at h
  · intro w pf o ex e h
    rw [updateRepositories_def] at h ⊢
    rcases hscan : lastOwnerFind ex.s.installs o with _ | ⟨idx, inst⟩
    · rw [urBody_none w pf _ hscan] at h
      simp at h
    · by_cases hgate : inst.RepositoriesUpdatedAt + w.updateInterval > w.clock ex.tick
      · rw [urBody_skip w pf _ hscan hgate] at h
        simp at h
      · rw [urBody_refresh w pf _ hscan hgate] at h ⊢
        rcases hc : (funsAt w pf 1).cit o [] emptyPermissions { ex with tick := ex.tick + 1 }
          with ⟨cr, ex2⟩
        have hstate : ex2.s = (updateInstallations w pf { ex with tick := ex.tick + 1 }).2.s := by
          have h1 : (funsAt w pf 1).cit = citBody w pf (funsAt w pf 0).grid := rfl
          rw [h1] at hc
          have h3 := citBody_nil_state w pf (funsAt w pf 0).grid o emptyPermissions
            { ex with tick := ex.tick + 1 }
          rw [hc] at h3
          exact h3
        have hsc : ex2.s = ex.s
            ∨ ∀ i ∈ ex2.s.installs, i.Repositories = [] ∧ i.RepositoriesUpdatedAt = 0 := by
          rcases updateInstallations_state_cases w pf { ex with tick := ex.tick + 1 } with h1 | h1
          · exact Or.inl (by rw [hstate, h1])
          · refine Or.inr ?_
            rw [hstate]
            exact h1
        cases cr with
        | ok tok =>
          rw [hc] at h
          rw [bindR_ok] at h ⊢
          rcases hfp : fetchPages (fun page => w.listRepos tok.token 100 page) pf 0
            with ⟨grs, pages⟩ | ⟨e2, pages⟩ | ⟨pages⟩
          · by_cases hg : ex2.s.gen = ex.s.gen
            · rw [urFetch_ok_write ex2 hfp hg] at h; simp at h
            · rw [urFetch_ok_stale ex2 hfp hg] at h; simp at h
          · rw [urFetch_err ex2 hfp] at h ⊢
            rcases hsc with h1 | h1
            · exact Or.inl h1
            · exact Or.inr h1
          · rw [urFetch_diverge ex2 hfp] at h; simp at h
        | err e2 =>
          rw [hc] at h
          rw [bindR_err] at h ⊢
          rcases hsc with h1 | h1
          · exact Or.inl h1
          · exact Or.inr h1
        | crash => rw [hc] at h; rw [bindR_crash] at h; simp at h
        | diverge => rw [hc] at h; rw [bindR_diverge] at h; simp at h

/-- Witness for the amended claim C2 at a concrete input: a failing
installation-page fetch leaves the state untouched. -/
theorem C2_witness : (updateInstallations wErr 2 ex0).2.s = ex0.s :=
  C2_all_or_nothing.1 wErr 2 ex0 (AppError.remote ("boom")) (by decide)

/-! ## Claim C3 -/

theorem fetchPages_pages_ne_nil {α : Type} (call : Nat → Except String (List α × Nat))
    (fuel page : Nat) :
    (fetchPages call (fuel + 1) page).pages ≠ [] := by
  unfold fetchPages
  rcases hc : call page with e | ⟨items, next⟩
  · simp [FetchRes.pages]
  · dsimp only
    by_cases hn : next = 0
    · rw [if_pos hn]
      simp [FetchRes.pages]
    · rw [if_neg hn]
      rcases hr : fetchPages call fuel next with ⟨r1, p1⟩ | ⟨e1, p1⟩ | ⟨p1⟩ <;>
        simp [FetchRes.pages]

theorem updateInstallations_log (w : World) (pf : Nat) (ex : Exec) :
    ∃ δ, (updateInstallations w pf ex).2.log = ex.log ++ δ := by
  rcases updateInstallations_cases w pf ex with ⟨hg, hs⟩ |
    ⟨hg, ⟨g, p, hf, hs⟩ | ⟨e2, p, hf, hs⟩ | ⟨p, hf, hs⟩⟩
  · rw [hs]; exact ⟨[], by simp⟩
  · rw [hs]; exact ⟨p.map (fun q => RemoteCall.listInst 10 q), rfl⟩
  · rw [hs]; exact ⟨p.map (fun q => RemoteCall.listInst 10 q), rfl⟩
  · rw [hs]; exact ⟨p.map (fun q => RemoteCall.listInst 10 q), rfl⟩

theorem citBody_nil_ok_loglen {w : World} {pf : Nat}
    {g : String → String → Exec → Res Int × Exec}
    {o : String} {p : InstallationPermissions} {ex : Exec}
    {tok : InstallationToken} {ex2 : Exec}
    (h : citBody w pf g o [] p ex = (Res.ok tok, ex2)) :
    ex.log.length < ex2.log.length := by
  rw [citBody_nil] at h
  rcases hg : getInstallationID w pf o ex with ⟨r, ex1⟩
  rw [hg] at h
  have hlog1 : ex1.log = (updateInstallations w pf ex).2.log := by
    have h2 := getInstallationID_exec w pf o ex
    rw [hg] at h2
    exact congrArg Exec.log h2
  obtain ⟨δ, hδ⟩ := updateInstallations_log w pf ex
  cases r with
  | ok id =>
    rw [bindR_ok] at h
    have hm := (mintToken_state w id [] p ex1).2.2
    rw [h] at hm
    rw [hlog1, hδ] at hm
    rw [hm]
    simp
  | err e => rw [bindR_err] at h; simp at h
  | crash => rw [bindR_crash] at h; simp at h
  | diverge => rw [bindR_diverge] at h; simp at h

/-- Claim C3: refresh throttling at both cache levels.  (1) The
installation refresh is skipped -- returning success with nothing but
the tick advanced -- exactly when `installsUpdatedAt + interval > now`;
(2) likewise the repository refresh of the scanned installation is
skipped exactly when its `RepositoriesUpdatedAt + interval > now`; (3)
a resolution call issued while the installation cache is fresh reads
the cache and performs no remote call and no mutation, so two calls
within the interval trigger at most the one refresh of the first call;
(4) a call issued after the interval has elapsed performs exactly one
paginated list refresh (a nonempty batch of page-10 list calls). -/
theorem C3_refresh_throttling :
    (∀ (w : World) (pf : Nat) (ex : Exec),
        (ex.s.installsUpdatedAt + w.updateInterval > w.clock ex.tick)
        ↔ updateInstallations w pf ex = (Res.ok (), { ex with tick := ex.tick + 1 }))
    ∧ (∀ (w : World) (pf : Nat) (o : String) (ex : Exec) (idx : Nat) (inst : installation),
        lastOwnerFind ex.s.installs o = some (idx, inst) →
        ((inst.RepositoriesUpdatedAt + w.updateInterval > w.clock ex.tick)
          ↔ updateRepositories w pf o ex = (Res.ok (), { ex with tick := ex.tick + 1 })))
    ∧ (∀ (w : World) (pf : Nat) (o : String) (ex : Exec),
        ex.s.installsUpdatedAt + w.updateInterval > w.clock ex.tick →
        (getInstallationID w pf o ex).2.s = ex.s ∧ (getInstallationID w pf o ex).2.log = ex.log)
    ∧ (∀ (w : World) (pf : Nat) (ex : Exec),
        ¬ ex.s.installsUpdatedAt + w.updateInterval > w.clock ex.tick → 1 ≤ pf →
        ∃ pages, pages ≠ []
          ∧ (updateInstallations w pf ex).2.log
              = ex.log ++ pages.map (fun p => RemoteCall.listInst 10 p)) := by
  refine ⟨?_, ?_, ?_, ?_⟩
  · intro w pf ex
    constructor
    · exact fun h => updateInstallations_skip w pf ex h
    · intro h
      by_contra hg
      rcases updateInstallations_cases w pf ex with ⟨hg2, _⟩ |
        ⟨hg2, ⟨g, p, hf, hs⟩ | ⟨e2, p, hf, hs⟩ | ⟨p, hf, hs⟩⟩
      · exact hg hg2
      · rw [hs] at h
        have h2 : ex.tick + 2 = ex.tick + 1 := congrArg (fun x => x.2.tick) h
        omega
      · rw [hs] at h
        exact absurd (congrArg Prod.fst h) (by simp)
      · rw [hs] at h
        exact absurd (congrArg Prod.fst h) (by simp)
  · intro w pf o ex idx inst hscan
    constructor
    · intro hgate
      rw [updateRepositories_def]
      exact urBody_skip w pf _ hscan hgate
    · intro h
      by_contra hgate
      rw [updateRepositories_def, urBody_refresh w pf _ hscan hgate] at h
      rcases hc : (funsAt w pf 1).cit o [] emptyPermissions { ex with tick := ex.tick + 1 }
        with ⟨cr, ex2⟩
      rw [hc] at h
      cases cr with
      | ok tok =>
        rw [bindR_ok] at h
        have hc2 : citBody w pf (funsAt w pf 0).grid o [] emptyPermissions
            { ex with tick := ex.tick + 1 } = (Res.ok tok, ex2) := hc
        have hlen : ({ ex with tick := ex.tick + 1 } : Exec).log.length < ex2.log.length :=
          citBody_nil_ok_loglen hc2
        have hlen2 : ex.log.length < ex2.log.length := hlen
        rcases hfp : fetchPages (fun page => w.listRepos tok.token 100 page) pf 0
          with ⟨grs, pages⟩ | ⟨e2, pages⟩ | ⟨pages⟩
        · by_cases hg : ex2.s.gen = ex.s.gen
          · rw [urFetch_ok_write ex2 hfp hg] at h
            have h2 := congrArg (fun x => x.2.log.length) h
            simp at h2
            omega
          · rw [urFetch_ok_stale ex2 hfp hg] at h
            have h2 := congrArg (fun x => x.2.log.length) h
            simp at h2
            omega
        · rw [urFetch_err ex2 hfp] at h
          exact absurd (congrArg Prod.fst h) (by simp)
        · rw [urFetch_diverge ex2 hfp] at h
          exact absurd (congrArg Prod.fst h) (by simp)
      | err e2 =>
        rw [bindR_err] at h
        exact absurd (congrArg Prod.fst h) (by simp)
      | crash =>
        rw [bindR_crash] at h
        exact absurd (congrArg Prod.fst h) (by simp)
      | diverge =>
        rw [bindR_diverge] at h
        exact absurd (congrArg Prod.fst h) (by simp)
  · intro w pf o ex hgate
    have h2 := getInstallationID_exec w pf o ex
    rw [updateInstallations_skip w pf ex hgate] at h2
    constructor <;> rw [h2]
  · intro w pf ex hgate hpf
    rcases updateInstallations_cases w pf ex with ⟨hg2, _⟩ |
      ⟨hg2, ⟨g, p, hf, hs⟩ | ⟨e2, p, hf, hs⟩ | ⟨p, hf, hs⟩⟩
    · exact absurd hg2 hgate
    all_goals {
      rw [hs]
      refine ⟨p, ?_, rfl⟩
      cases pf with
      | zero => omega
      | succ k =>
        have hp := fetchPages_pages_ne_nil (fun page => w.listInstallations 10 page) k 0
        rw [hf] at hp
        exact hp }

/-- Witness for claim C3 at a concrete input: with a fresh installation
cache (timestamp 100, interval 1, clock 100) a resolution call reads
the cache and adds no remote call. -/
theorem C3_witness :
    (getInstallationID wA 2 ("acme") exFresh).2.s = exFresh.s
    ∧ (getInstallationID wA 2 ("acme") exFresh).2.log = exFresh.log :=
  C3_refresh_throttling.2.2.1 wA 2 ("acme") exFresh (by decide)

/-! ## Claim C6 -/

theorem getRepositoryID_def (w : World) (pf : Nat) (o r : String) (ex : Exec) :
    getRepositoryID w pf o r ex = gridBody (updateRepositories w pf) o r ex := rfl

theorem CreateInstallationToken_def (w : World) (pf : Nat) (o : String) (rs : List String)
    (p : InstallationPermissions) (ex : Exec) :
    CreateInstallationToken w pf o rs p ex
      = citBody w pf (getRepositoryID w pf) o rs p ex := rfl

/-- Claim C6: NotFound semantics.  When the (successful or skipped)
installation refresh leaves no entry whose owner matches, resolution
fails with `ErrInstallationNotFound(owner)`; when the repository refresh
succeeds (or is skipped) but the nested scan finds no matching
repository, `getRepositoryID` fails with the same error kind carrying
`owner/repoName`; and the error message is
the not-found message with the queried key. -/
theorem C6_not_found_errors :
    (∀ (w : World) (pf : Nat) (o : String) (ex ex2 : Exec),
        updateInstallations w pf ex = (Res.ok (), ex2) →
        ex2.s.installs.find? (fun j => j.Owner == o) = none →
        getInstallationID w pf o ex = (Res.err (AppError.installationNotFound o), ex2))
    ∧ (∀ (w : World) (pf : Nat) (o r : String) (ex ex2 : Exec),
        updateRepositories w pf o ex = (Res.ok (), ex2) →
        findRepoID ex2.s.installs o r = none →
        getRepositoryID w pf o r ex
          = (Res.err (AppError.installationNotFound (o ++ "/" ++ r)), ex2))
    ∧ (∀ k : String, AppError.message (AppError.installationNotFound k)
        = "installation not found: \x27" ++ k ++ "\x27") := by
  refine ⟨?_, ?_, fun k => rfl⟩
  · intro w pf o ex ex2 hu hf
    unfold getInstallationID
    rw [hu, bindR_ok]
    try dsimp only
    rw [hf]
  · intro w pf o r ex ex2 hu hf
    rw [getRepositoryID_def]
    unfold gridBody
    rw [hu, bindR_ok]
    try dsimp only
    rw [hf]

/-- Witness for claim C6 at a concrete input: a fresh repository cache
lacking `ghost` makes `getRepositoryID` fail with the combined key. -/
theorem C6_witness :
    getRepositoryID wA 2 ("acme") ("ghost") exFresh
      = (Res.err (AppError.installationNotFound (("acme") ++ "/" ++ ("ghost"))),
         { exFresh with tick := exFresh.tick + 1 }) :=
  C6_not_found_errors.2.1 wA 2 ("acme") ("ghost") exFresh
    ({ exFresh with tick := exFresh.tick + 1 }) (by decide) (by decide)

/-! ## Claim C5 -/

theorem getInstallationID_skip_found {w : World} {pf : Nat} {o : String} {ex : Exec}
    {i0 : installation}
    (hgate : ex.s.installsUpdatedAt + w.updateInterval > w.clock ex.tick)
    (hfind : ex.s.installs.find? (fun j => j.Owner == o) = some i0) :
    getInstallationID w pf o ex = (Res.ok i0.ID, { ex with tick := ex.tick + 1 }) := by
  unfold getInstallationID
  rw [updateInstallations_skip w pf ex hgate, bindR_ok]
  try dsimp only
  rw [hfind]

theorem getRepositoryID_skip_found {w : World} {pf : Nat} {o r : String} {ex : Exec}
    {idx : Nat} {inst : installation} {id : Int}
    (hscan : lastOwnerFind ex.s.installs o = some (idx, inst))
    (hgate : inst.RepositoriesUpdatedAt + w.updateInterval > w.clock ex.tick)
    (hfind : findRepoID ex.s.installs o r = some id) :
    getRepositoryID w pf o r ex = (Res.ok id, { ex with tick := ex.tick + 1 }) := by
  rw [getRepositoryID_def]
  unfold gridBody
  rw [updateRepositories_def, urBody_skip w pf _ hscan hgate, bindR_ok]
  try dsimp only
  rw [hfind]

theorem resolveList_fresh (w : World) (pf : Nat) (o : String)
    (s : AppState) (idx : Nat) (inst : installation)
    (hscan : lastOwnerFind s.installs o = some (idx, inst))
    (hclock : ∀ t, w.clock t = w.clock 0)
    (hgate : inst.RepositoriesUpdatedAt + w.updateInterval > w.clock 0) :
    ∀ (rs : List String) (ids : List Int), ResolvesTo s.installs o rs ids →
      ∀ (t : Nat) (l : List RemoteCall),
        resolveList (fun r ex3 => getRepositoryID w pf o r ex3) rs { s := s, tick := t, log := l }
          = (Res.ok ids, { s := s, tick := t + rs.length, log := l }) := by
  intro rs
  induction rs with
  | nil =>
    intro ids h t l
    cases ids with
    | nil => simp [resolveList]
    | cons id ids => exact h.elim
  | cons r rs ih =>
    intro ids h t l
    cases ids with
    | nil => exact h.elim
    | cons id ids =>
      obtain ⟨h1, h2⟩ := h
      have hstep : getRepositoryID w pf o r { s := s, tick := t, log := l }
          = (Res.ok id, { s := s, tick := t + 1, log := l }) := by
        refine getRepositoryID_skip_found hscan ?_ h1
        rw [hclock t]
        exact hgate
      unfold resolveList
      rw [hstep, bindR_ok]
      try dsimp only
      rw [ih ids h2 (t + 1) l, bindR_ok]
      have h3 : t + 1 + rs.length = t + (rs.length + 1) := by omega
      rw [h3]
      rfl

/-- Claim C5: `CreateInstallationToken` resolves the names in the order
given (duplicates preserved positionally); it aborts with the first
resolution error and in that case adds nothing after the failed
resolution -- in particular this invocation sends no token request; on
the success path the downstream token request carries the resolved IDs
in input order, and an empty name list yields a request with an empty
repository-ID list. -/
theorem C5_resolution_order_failfast :
    (∀ (w : World) (pf : Nat) (o : String) (rs : List String) (p : InstallationPermissions)
        (ex : Exec) (id : Int) (ex1 : Exec) (e : AppError) (ex2 : Exec),
        getInstallationID w pf o ex = (Res.ok id, ex1) →
        resolveList (fun r ex3 => getRepositoryID w pf o r ex3) rs ex1 = (Res.err e, ex2) →
        CreateInstallationToken w pf o rs p ex = (Res.err e, ex2))
    ∧ (∀ (w : World) (pf : Nat) (o : String) (p : InstallationPermissions)
        (ex : Exec) (id : Int) (ex1 : Exec),
        getInstallationID w pf o ex = (Res.ok id, ex1) →
        CreateInstallationToken w pf o [] p ex = mintToken w id [] p ex1)
    ∧ (∀ (w : World) (pf : Nat) (o : String) (rs : List String) (p : InstallationPermissions)
        (ex : Exec) (idx : Nat) (inst i0 : installation) (ids : List Int),
        (∀ t, w.clock t = w.clock 0) →
        ex.s.installsUpdatedAt + w.updateInterval > w.clock 0 →
        ex.s.installs.find? (fun j => j.Owner == o) = some i0 →
        lastOwnerFind ex.s.installs o = some (idx, inst) →
        inst.RepositoriesUpdatedAt + w.updateInterval > w.clock 0 →
        ResolvesTo ex.s.installs o rs ids →
        CreateInstallationToken w pf o rs p ex
          = mintToken w i0.ID ids p
              { s := ex.s, tick := ex.tick + 1 + rs.length, log := ex.log }) := by
  refine ⟨?_, ?_, ?_⟩
  · intro w pf o rs p ex id ex1 e ex2 hgI hres
    rw [CreateInstallationToken_def]
    unfold citBody
    rw [hgI, bindR_ok]
    try dsimp only
    rw [hres, bindR_err]
  · intro w pf o p ex id ex1 hgI
    rw [CreateInstallationToken_def, citBody_nil, hgI, bindR_ok]
  · intro w pf o rs p ex idx inst i0 ids hclock hfreshI hfind hscan hfreshR hres
    have hgI : getInstallationID w pf o ex = (Res.ok i0.ID, { ex with tick := ex.tick + 1 }) := by
      refine getInstallationID_skip_found ?_ hfind
      rw [hclock ex.tick]
      exact hfreshI
    rw [CreateInstallationToken_def]
    unfold citBody
    rw [hgI, bindR_ok]
    try dsimp only
    have hresolve := resolveList_fresh w pf o ex.s idx inst hscan hclock hfreshR rs ids hres
      (ex.tick + 1) ex.log
    rw [hresolve, bindR_ok]

/-- Witness for claim C5 at a concrete input: with cache
`{repoA:1, repoB:2, repoC:3}` the request for `[repoA, repoB]` carries
`repositoryIDs = [1, 2]` in that order. -/
theorem C5_witness :
    CreateInstallationToken wA 2 ("acme") [("repoA"), ("repoB")] emptyPermissions exFresh
      = mintToken wA 7 [1, 2] emptyPermissions
          { s := exFresh.s, tick := exFresh.tick + 1 + 2, log := exFresh.log } :=
  C5_resolution_order_failfast.2.2 wA 2 ("acme") [("repoA"), ("repoB")] emptyPermissions exFresh
    0 ({ ID := 7, Owner := "acme"
       , Repositories := [{ ID := 1, Name := "repoA" }
                         , { ID := 2, Name := "repoB" }
                         , { ID := 3, Name := "repoC" }]
       , RepositoriesUpdatedAt := 100 })
    ({ ID := 7, Owner := "acme"
     , Repositories := [{ ID := 1, Name := "repoA" }
                       , { ID := 2, Name := "repoB" }
                       , { ID := 3, Name := "repoC" }]
     , RepositoriesUpdatedAt := 100 })
    [1, 2] (fun _ => rfl) (by decide) (by decide) (by decide) (by decide)
    ⟨by decide, by decide, trivial⟩

/-! ## Claim C9 -/

theorem lastOwnerFind_some_of_mem {l : List installation} {o : String}
    (h : ∃ i ∈ l, i.Owner = o) :
    ∃ idx inst, lastOwnerFind l o = some (idx, inst) := by
  induction l with
  | nil =>
    rcases h with ⟨i, hi, _⟩
    cases hi
  | cons a l ih =>
    rcases h with ⟨i, hi, ho⟩
    rcases List.mem_cons.mp hi with rfl | hmem
    · cases hrec : lastOwnerFind l o with
      | some pr =>
        rcases pr with ⟨n, j⟩
        exact ⟨n + 1, j, by unfold lastOwnerFind; rw [hrec]⟩
      | none =>
        refine ⟨0, i, ?_⟩
        unfold lastOwnerFind
        rw [hrec]
        simp [ho]
    · rcases ih ⟨i, hmem, ho⟩ with ⟨n, j, hrec⟩
      exact ⟨n + 1, j, by unfold lastOwnerFind; rw [hrec]⟩

theorem writeRepos_owner_mem (o : String) (rs : List repository) (ts : Time) :
    ∀ (l : List installation) (idx : Nat), (∃ i ∈ l, i.Owner = o) →
      ∃ i ∈ writeRepos l idx rs ts, i.Owner = o := by
  intro l
  induction l with
  | nil =>
    intro idx h
    rcases h with ⟨i, hi, _⟩
    cases hi
  | cons a l ih =>
    intro idx h
    rcases h with ⟨i, hi, ho⟩
    cases idx with
    | zero =>
      rcases List.mem_cons.mp hi with rfl | hmem
      · exact ⟨{ i with Repositories := rs, RepositoriesUpdatedAt := ts },
          List.mem_cons_self _ _, ho⟩
      · exact ⟨i, List.mem_cons_of_mem _ hmem, ho⟩
    | succ n =>
      rcases List.mem_cons.mp hi with rfl | hmem
      · exact ⟨i, List.mem_cons_self _ _, ho⟩
      · rcases ih n ⟨i, hmem, ho⟩ with ⟨j, hj, hjo⟩
        exact ⟨j, List.mem_cons_of_mem _ hj, hjo⟩

theorem resolveList_pres (step : String → Exec → Res Int × Exec) (o : String)
    (hstep : ∀ r ex, (∃ i ∈ ex.s.installs, i.Owner = o) →
        (step r ex).1 ≠ Res.crash
        ∧ ∀ v ex2, step r ex = (Res.ok v, ex2) → ∃ i ∈ ex2.s.installs, i.Owner = o) :
    ∀ (rs : List String) (ex : Exec), (∃ i ∈ ex.s.installs, i.Owner = o) →
      (resolveList step rs ex).1 ≠ Res.crash
      ∧ ∀ ids ex2, resolveList step rs ex = (Res.ok ids, ex2) →
          ∃ i ∈ ex2.s.installs, i.Owner = o := by
  intro rs
  induction rs with
  | nil =>
    intro ex h
    refine ⟨by simp [resolveList], ?_⟩
    intro ids ex2 hh
    have h2 : ex = ex2 := congrArg Prod.snd hh
    subst h2
    exact h
  | cons r rs ih =>
    intro ex h
    unfold resolveList
    rcases hs : step r ex with ⟨r1, ex1⟩
    obtain ⟨hnc, hok⟩ := hstep r ex h
    rw [hs] at hnc
    cases r1 with
    | ok id =>
      have h1 : ∃ i ∈ ex1.s.installs, i.Owner = o := hok id ex1 hs
      simp only [bindR_ok]
      try dsimp only
      obtain ⟨hnc2, hok2⟩ := ih ex1 h1
      rcases hrl : resolveList step rs ex1 with ⟨r2, ex2⟩
      rw [hrl] at hnc2
      cases r2 with
      | ok ids =>
        simp only [bindR_ok]
        try dsimp only
        refine ⟨by simp, ?_⟩
        intro ids2 ex3 hh
        have h3 : ex2 = ex3 := congrArg Prod.snd hh
        subst h3
        exact hok2 ids ex2 hrl
      | err e =>
        simp only [bindR_err]
        refine ⟨by simp, ?_⟩
        intro ids2 ex3 hh
        exact absurd (congrArg Prod.fst hh) (by simp)
      | crash => exact absurd rfl hnc2
      | diverge =>
        simp only [bindR_diverge]
        refine ⟨by simp, ?_⟩
        intro ids2 ex3 hh
        exact absurd (congrArg Prod.fst hh) (by simp)
    | err e =>
      simp only [bindR_err]
      refine ⟨by simp, ?_⟩
      intro ids2 ex3 hh
      exact absurd (congrArg Prod.fst hh) (by simp)
    | crash => exact absurd rfl hnc
    | diverge =>
      simp only [bindR_diverge]
      refine ⟨by simp, ?_⟩
      intro ids2 ex3 hh
      exact absurd (congrArg Prod.fst hh) (by simp)

theorem funsAt_no_crash (w : World) (pf : Nat) : ∀ fuel : Nat,
    (∀ (o : String) (rs : List String) (p : InstallationPermissions) (ex : Exec),
        ((funsAt w pf fuel).cit o rs p ex).1 ≠ Res.crash
        ∧ ∀ tok ex2, (funsAt w pf fuel).cit o rs p ex = (Res.ok tok, ex2) →
            ∃ i ∈ ex2.s.installs, i.Owner = o)
    ∧ (∀ (o r : String) (ex : Exec), (∃ i ∈ ex.s.installs, i.Owner = o) →
        ((funsAt w pf fuel).grid o r ex).1 ≠ Res.crash
        ∧ ∀ v ex2, (funsAt w pf fuel).grid o r ex = (Res.ok v, ex2) →
            ∃ i ∈ ex2.s.installs, i.Owner = o)
    ∧ (∀ (o : String) (ex : Exec), (∃ i ∈ ex.s.installs, i.Owner = o) →
        ((funsAt w pf fuel).ur o ex).1 ≠ Res.crash
        ∧ ∀ u ex2, (funsAt w pf fuel).ur o ex = (Res.ok u, ex2) →
            ∃ i ∈ ex2.s.installs, i.Owner = o) := by
  intro fuel
  induction fuel with
  | zero =>
    refine ⟨?_, ?_, ?_⟩
    · intro o rs p ex
      refine ⟨by simp [funsAt, divergeFuns], ?_⟩
      intro tok ex2 hh
      exact absurd (congrArg Prod.fst hh) (by simp [funsAt, divergeFuns])
    · intro o r ex h
      refine ⟨by simp [funsAt, divergeFuns], ?_⟩
      intro v ex2 hh
      exact absurd (congrArg Prod.fst hh) (by simp [funsAt, divergeFuns])
    · intro o ex h
      refine ⟨by simp [funsAt, divergeFuns], ?_⟩
      intro u ex2 hh
      exact absurd (congrArg Prod.fst hh) (by simp [funsAt, divergeFuns])
  | succ f ih =>
    obtain ⟨ihc, ihg, ihu⟩ := ih
    refine ⟨?_, ?_, ?_⟩
    · -- CreateInstallationToken at stratum f+1
      intro o rs p ex
      have hcit : (funsAt w pf (f + 1)).cit = citBody w pf (funsAt w pf f).grid := rfl
      rw [hcit]
      unfold citBody
      rcases hg : getInstallationID w pf o ex with ⟨r, ex1⟩
      have hgnc := getInstallationID_not_crash w pf o ex
      rw [hg] at hgnc
      cases r with
      | ok id =>
        have h1 : ∃ i ∈ ex1.s.installs, i.Owner = o := by
          rcases getInstallationID_ok_owner hg with ⟨i, hm, ho, _⟩
          exact ⟨i, hm, ho⟩
        simp only [bindR_ok]
        try dsimp only
        have hres := resolveList_pres (fun repo ex3 => (funsAt w pf f).grid o repo ex3) o
          (fun r2 ex2 h2 => ihg o r2 ex2 h2) rs ex1 h1
        obtain ⟨hnc2, hok2⟩ := hres
        rcases hrl : resolveList (fun repo ex3 => (funsAt w pf f).grid o repo ex3) rs ex1
          with ⟨r2, ex2⟩
        rw [hrl] at hnc2
        cases r2 with
        | ok ids =>
          have h2 := hok2 ids ex2 hrl
          simp only [bindR_ok]
          try dsimp only
          have hm := mintToken_state w id ids p ex2
          rcases hmt : mintToken w id ids p ex2 with ⟨r3, ex3⟩
          rw [hmt] at hm
          have hs3 : ex3.s = ex2.s := hm.1
          cases r3 with
          | ok tok =>
            refine ⟨by simp, ?_⟩
            intro tok2 ex4 hh
            have h4 : ex3 = ex4 := congrArg Prod.snd hh
            subst h4
            rw [hs3]
            exact h2
          | err e =>
            refine ⟨by simp, ?_⟩
            intro tok2 ex4 hh
            exact absurd (congrArg Prod.fst hh) (by simp)
          | crash =>
            exfalso
            have := (mintToken_state w id ids p ex2).1
            rw [hmt] at this
            -- mintToken never crashes: derive contradiction from its shape
            have h5 : (mintToken w id ids p ex2).1 ≠ Res.crash := by
              unfold mintToken
              rcases hct : w.createInstallationToken id ids p with e | tok <;> simp
            rw [hmt] at h5
            exact h5 rfl
          | diverge =>
            refine ⟨by simp, ?_⟩
            intro tok2 ex4 hh
            exact absurd (congrArg Prod.fst hh) (by simp)
        | err e =>
          simp only [bindR_err]
          refine ⟨by simp, ?_⟩
          intro tok ex4 hh
          exact absurd (congrArg Prod.fst hh) (by simp)
        | crash => exact absurd rfl hnc2
        | diverge =>
          simp only [bindR_diverge]
          refine ⟨by simp, ?_⟩
          intro tok ex4 hh
          exact absurd (congrArg Prod.fst hh) (by simp)
      | err e =>
        simp only [bindR_err]
        refine ⟨by simp, ?_⟩
        intro tok ex4 hh
        exact absurd (congrArg Prod.fst hh) (by simp)
      | crash => exact absurd rfl hgnc
      | diverge =>
        simp only [bindR_diverge]
        refine ⟨by simp, ?_⟩
        intro tok ex4 hh
        exact absurd (congrArg Prod.fst hh) (by simp)
    · -- getRepositoryID at stratum f+1
      intro o r ex h
      have hgr : (funsAt w pf (f + 1)).grid = gridBody (funsAt w pf f).ur := rfl
      rw [hgr]
      unfold gridBody
      rcases hu : (funsAt w pf f).ur o ex with ⟨r1, ex1⟩
      obtain ⟨hunc, huok⟩ := ihu o ex h
      rw [hu] at hunc
      cases r1 with
      | ok u =>
        cases u
        have h1 := huok () ex1 hu
        simp only [bindR_ok]
        try dsimp only
        rcases hf : findRepoID ex1.s.installs o r with _ | id
        · refine ⟨by simp, ?_⟩
          intro v ex2 hh
          exact absurd (congrArg Prod.fst hh) (by simp)
        · refine ⟨by simp, ?_⟩
          intro v ex2 hh
          have h3 : ex1 = ex2 := congrArg Prod.snd hh
          subst h3
          exact h1
      | err e =>
        simp only [bindR_err]
        refine ⟨by simp, ?_⟩
        intro v ex2 hh
        exact absurd (congrArg Prod.fst hh) (by simp)
      | crash => exact absurd rfl hunc
      | diverge =>
        simp only [bindR_diverge]
        refine ⟨by simp, ?_⟩
        intro v ex2 hh
        exact absurd (congrArg Prod.fst hh) (by simp)
    · -- updateRepositories at stratum f+1
      intro o ex h
      have hur : (funsAt w pf (f + 1)).ur = urBody w pf (funsAt w pf f).cit := rfl
      rw [hur]
      obtain ⟨idx, inst, hscan⟩ := lastOwnerFind_some_of_mem h
      by_cases hgate : inst.RepositoriesUpdatedAt + w.updateInterval > w.clock ex.tick
      · rw [urBody_skip w pf _ hscan hgate]
        refine ⟨by simp, ?_⟩
        intro u ex2 hh
        have h2 : ({ ex with tick := ex.tick + 1 } : Exec) = ex2 := congrArg Prod.snd hh
        subst h2
        exact h
      · rw [urBody_refresh w pf _ hscan hgate]
        rcases hc : (funsAt w pf f).cit o [] emptyPermissions { ex with tick := ex.tick + 1 }
          with ⟨cr, ex2⟩
        obtain ⟨hcnc, hcok⟩ := ihc o [] emptyPermissions { ex with tick := ex.tick + 1 }
        rw [hc] at hcnc
        cases cr with
        | ok tok =>
          have h2 : ∃ i ∈ ex2.s.installs, i.Owner = o := hcok tok ex2 hc
          simp only [bindR_ok]
          rcases hfp : fetchPages (fun page => w.listRepos tok.token 100 page) pf 0
            with ⟨grs, pages⟩ | ⟨e2, pages⟩ | ⟨pages⟩
          · by_cases hgen : ex2.s.gen = ex.s.gen
            · rw [urFetch_ok_write ex2 hfp hgen]
              refine ⟨by simp, ?_⟩
              intro u ex3 hh
              rw [Prod.mk.injEq] at hh
              obtain ⟨-, h3⟩ := hh
              subst h3
              exact writeRepos_owner_mem o (grs.map mkRepository) (w.clock ex2.tick)
                ex2.s.installs idx h2
            · rw [urFetch_ok_stale ex2 hfp hgen]
              refine ⟨by simp, ?_⟩
              intro u ex3 hh
              rw [Prod.mk.injEq] at hh
              obtain ⟨-, h3⟩ := hh
              subst h3
              exact h2
          · rw [urFetch_err ex2 hfp]
            refine ⟨by simp, ?_⟩
            intro u ex3 hh
            exact absurd (congrArg Prod.fst hh) (by simp)
          · rw [urFetch_diverge ex2 hfp]
            refine ⟨by simp, ?_⟩
            intro u ex3 hh
            exact absurd (congrArg Prod.fst hh) (by simp)
        | err e =>
          simp only [bindR_err]
          refine ⟨by simp, ?_⟩
          intro u ex3 hh
          exact absurd (congrArg Prod.fst hh) (by simp)
        | crash => exact absurd rfl hcnc
        | diverge =>
          simp only [bindR_diverge]
          refine ⟨by simp, ?_⟩
          intro u ex3 hh
          exact absurd (congrArg Prod.fst hh) (by simp)

/-- Claim C9: the unvalidated installation dereference in
`updateRepositories` is unreachable through the public entry point: at
every recursion stratum, `CreateInstallationToken` never reaches the nil
dereference (modelled as `Res.crash`), because whenever
`getRepositoryID` is invoked the preceding `getInstallationID` (outer or
bootstrap) succeeded for the same owner and every later state still
contains an entry for that owner, so the scan in `updateRepositories`
always finds a matching installation. -/
theorem C9_no_nil_dereference :
    ∀ (w : World) (pf fuel : Nat) (o : String) (rs : List String)
      (p : InstallationPermissions) (ex : Exec),
      ((funsAt w pf fuel).cit o rs p ex).1 ≠ Res.crash
      ∧ (CreateInstallationToken w pf o rs p ex).1 ≠ Res.crash := by
  intro w pf fuel o rs p ex
  exact ⟨((funsAt_no_crash w pf fuel).1 o rs p ex).1,
         ((funsAt_no_crash w pf 4).1 o rs p ex).1⟩

/-! ## Claim C4 -/

theorem resolveList_congr {s1 s2 : String → Exec → Res Int × Exec}
    (h : ∀ r ex, s1 r ex = s2 r ex) :
    ∀ (rs : List String) (ex : Exec), resolveList s1 rs ex = resolveList s2 rs ex := by
  intro rs
  induction rs with
  | nil => intro ex; rfl
  | cons r rs ih =>
    intro ex
    unfold resolveList
    rw [h r ex]
    rcases hx : s2 r ex with ⟨r1, ex1⟩
    cases r1 with
    | ok id =>
      simp only [bindR_ok]
      try dsimp only
      rw [ih ex1]
    | err e => simp only [bindR_err]
    | crash => simp only [bindR_crash]
    | diverge => simp only [bindR_diverge]

theorem citBody_congr {w : World} {pf : Nat} {g1 g2 : String → String → Exec → Res Int × Exec}
    (h : ∀ o r ex, g1 o r ex = g2 o r ex) :
    ∀ (o : String) (rs : List String) (p : InstallationPermissions) (ex : Exec),
      citBody w pf g1 o rs p ex = citBody w pf g2 o rs p ex := by
  intro o rs p ex
  unfold citBody
  rcases hg : getInstallationID w pf o ex with ⟨r, ex1⟩
  cases r with
  | ok id =>
    simp only [bindR_ok]
    try dsimp only
    rw [resolveList_congr (fun r2 ex2 => h o r2 ex2) rs ex1]
  | err e => simp only [bindR_err]
  | crash => simp only [bindR_crash]
  | diverge => simp only [bindR_diverge]

theorem gridBody_congr {u1 u2 : String → Exec → Res Unit × Exec}
    (h : ∀ o ex, u1 o ex = u2 o ex) :
    ∀ (o r : String) (ex : Exec), gridBody u1 o r ex = gridBody u2 o r ex := by
  intro o r ex
  unfold gridBody
  rw [h o ex]

theorem urBody_congr {w : World} {pf : Nat}
    {c1 c2 : String → List String → InstallationPermissions → Exec → Res InstallationToken × Exec}
    (h : ∀ o ex, c1 o [] emptyPermissions ex = c2 o [] emptyPermissions ex) :
    ∀ (o : String) (ex : Exec), urBody w pf c1 o ex = urBody w pf c2 o ex := by
  intro o ex
  rcases hscan : lastOwnerFind ex.s.installs o with _ | ⟨idx, inst⟩
  · rw [urBody_none w pf c1 hscan, urBody_none w pf c2 hscan]
  · by_cases hgate : inst.RepositoriesUpdatedAt + w.updateInterval > w.clock ex.tick
    · rw [urBody_skip w pf c1 hscan hgate, urBody_skip w pf c2 hscan hgate]
    · rw [urBody_refresh w pf c1 hscan hgate, urBody_refresh w pf c2 hscan hgate,
        h o { ex with tick := ex.tick + 1 }]

theorem funsAt_cit_nil (w : World) (pf : Nat) :
    ∀ (f : Nat) (o : String) (p : InstallationPermissions) (ex : Exec),
      (funsAt w pf (f + 1)).cit o [] p ex = (funsAt w pf 1).cit o [] p ex := by
  intro f o p ex
  have h1 : (funsAt w pf (f + 1)).cit = citBody w pf (funsAt w pf f).grid := rfl
  have h2 : (funsAt w pf 1).cit = citBody w pf (funsAt w pf 0).grid := rfl
  rw [h1, h2, citBody_nil, citBody_nil]

theorem funsAt_ur_stable (w : World) (pf : Nat) :
    ∀ (f : Nat) (o : String) (ex : Exec),
      (funsAt w pf (f + 2)).ur o ex = updateRepositories w pf o ex := by
  intro f o ex
  have h1 : (funsAt w pf (f + 2)).ur = urBody w pf (funsAt w pf (f + 1)).cit := rfl
  rw [h1, updateRepositories_def]
  exact urBody_congr (fun o2 ex2 => funsAt_cit_nil w pf f o2 emptyPermissions ex2) o ex

theorem funsAt_grid_stable (w : World) (pf : Nat) :
    ∀ (f : Nat) (o r : String) (ex : Exec),
      (funsAt w pf (f + 3)).grid o r ex = getRepositoryID w pf o r ex := by
  intro f o r ex
  have h1 : (funsAt w pf (f + 3)).grid = gridBody (funsAt w pf (f + 2)).ur := rfl
  rw [h1, getRepositoryID_def]
  exact gridBody_congr (fun o2 ex2 => funsAt_ur_stable w pf f o2 ex2) o r ex

theorem funsAt_cit_stable (w : World) (pf : Nat) :
    ∀ (f : Nat) (o : String) (rs : List String) (p : InstallationPermissions) (ex : Exec),
      (funsAt w pf (f + 4)).cit o rs p ex = CreateInstallationToken w pf o rs p ex := by
  intro f o rs p ex
  have h1 : (funsAt w pf (f + 4)).cit = citBody w pf (funsAt w pf (f + 3)).grid := rfl
  rw [h1, CreateInstallationToken_def]
  exact citBody_congr (fun o2 r2 ex2 => funsAt_grid_stable w pf f o2 r2 ex2) o rs p ex

theorem mintToken_not_diverge (w : World) (id : Int) (ids : List Int)
    (p : InstallationPermissions) (ex : Exec) :
    (mintToken w id ids p ex).1 ≠ Res.diverge := by
  unfold mintToken
  rcases h : w.createInstallationToken id ids p with e | tok <;> simp

theorem updateInstallations_not_diverge {w : World} {pf : Nat}
    (hI : ∀ q pgs, fetchPages (fun page => w.listInstallations 10 page) pf q ≠ FetchRes.diverge pgs)
    (ex : Exec) : (updateInstallations w pf ex).1 ≠ Res.diverge := by
  rcases updateInstallations_cases w pf ex with ⟨hg, hs⟩ |
    ⟨hg, ⟨g, p, hf, hs⟩ | ⟨e2, p, hf, hs⟩ | ⟨p, hf, hs⟩⟩
  · rw [hs]; simp
  · rw [hs]; simp
  · rw [hs]; simp
  · exact absurd hf (hI 0 p)

theorem getInstallationID_not_diverge {w : World} {pf : Nat}
    (hI : ∀ q pgs, fetchPages (fun page => w.listInstallations 10 page) pf q ≠ FetchRes.diverge pgs)
    (o : String) (ex : Exec) : (getInstallationID w pf o ex).1 ≠ Res.diverge := by
  unfold getInstallationID
  rcases hu : updateInstallations w pf ex with ⟨r, ex1⟩
  have hnd := updateInstallations_not_diverge hI ex
  rw [hu] at hnd
  cases r with
  | ok u =>
    rw [bindR_ok]
    try dsimp only
    rcases hf : ex1.s.installs.find? (fun j => j.Owner == o) with _ | i <;> rw [hf] <;> simp
  | err e => rw [bindR_err]; simp
  | crash => rw [bindR_crash]; simp
  | diverge => exact absurd rfl hnd

theorem cit_one_not_diverge {w : World} {pf : Nat}
    (hI : ∀ q pgs, fetchPages (fun page => w.listInstallations 10 page) pf q ≠ FetchRes.diverge pgs)
    (o : String) (p : InstallationPermissions) (ex : Exec) :
    ((funsAt w pf 1).cit o [] p ex).1 ≠ Res.diverge := by
  have h1 : (funsAt w pf 1).cit o [] p ex
      = bindR (getInstallationID w pf o ex) (fun id ex2 => mintToken w id [] p ex2) := by
    have h2 : (funsAt w pf 1).cit = citBody w pf (funsAt w pf 0).grid := rfl
    rw [h2, citBody_nil]
  rw [h1]
  rcases hg : getInstallationID w pf o ex with ⟨r, ex1⟩
  have hnd := getInstallationID_not_diverge hI o ex
  rw [hg] at hnd
  cases r with
  | ok id =>
    rw [bindR_ok]
    try dsimp only
    exact mintToken_not_diverge w id [] p ex1
  | err e => rw [bindR_err]; simp
  | crash => rw [bindR_crash]; simp
  | diverge => exact absurd rfl hnd

theorem updateRepositories_not_diverge {w : World} {pf : Nat}
    (hI : ∀ q pgs, fetchPages (fun page => w.listInstallations 10 page) pf q ≠ FetchRes.diverge pgs)
    (hR : ∀ tk q pgs, fetchPages (fun page => w.listRepos tk 100 page) pf q ≠ FetchRes.diverge pgs)
    (o : String) (ex : Exec) : (updateRepositories w pf o ex).1 ≠ Res.diverge := by
  rw [updateRepositories_def]
  rcases hscan : lastOwnerFind ex.s.installs o with _ | ⟨idx, inst⟩
  · rw [urBody_none w pf _ hscan]; simp
  · by_cases hgate : inst.RepositoriesUpdatedAt + w.updateInterval > w.clock ex.tick
    · rw [urBody_skip w pf _ hscan hgate]; simp
    · rw [urBody_refresh w pf _ hscan hgate]
      rcases hc : (funsAt w pf 1).cit o [] emptyPermissions { ex with tick := ex.tick + 1 }
        with ⟨cr, ex2⟩
      have hnd := cit_one_not_diverge hI o emptyPermissions { ex with tick := ex.tick + 1 }
      rw [hc] at hnd
      cases cr with
      | ok tok =>
        rw [bindR_ok]
        rcases hfp : fetchPages (fun page => w.listRepos tok.token 100 page) pf 0
          with ⟨grs, pages⟩ | ⟨e2, pages⟩ | ⟨pages⟩
        · by_cases hgen : ex2.s.gen = ex.s.gen
          · rw [urFetch_ok_write ex2 hfp hgen]; simp
          · rw [urFetch_ok_stale ex2 hfp hgen]; simp
        · rw [urFetch_err ex2 hfp]; simp
        · exact absurd hfp (hR tok.token 0 pages)
      | err e => rw [bindR_err]; simp
      | crash => rw [bindR_crash]; simp
      | diverge => exact absurd rfl hnd

theorem getRepositoryID_not_diverge {w : World} {pf : Nat}
    (hI : ∀ q pgs, fetchPages (fun page => w.listInstallations 10 page) pf q ≠ FetchRes.diverge pgs)
    (hR : ∀ tk q pgs, fetchPages (fun page => w.listRepos tk 100 page) pf q ≠ FetchRes.diverge pgs)
    (o r : String) (ex : Exec) : (getRepositoryID w pf o r ex).1 ≠ Res.diverge := by
  rw [getRepositoryID_def]
  unfold gridBody
  rcases hu : updateRepositories w pf o ex with ⟨r1, ex1⟩
  have hnd := updateRepositories_not_diverge hI hR o ex
  rw [hu] at hnd
  cases r1 with
  | ok u =>
    rw [bindR_ok]
    try dsimp only
    rcases hf : findRepoID ex1.s.installs o r with _ | id <;> simp
  | err e => rw [bindR_err]; simp
  | crash => rw [bindR_crash]; simp
  | diverge => exact absurd rfl hnd

theorem resolveList_not_diverge (step : String → Exec → Res Int × Exec)
    (hstep : ∀ r ex, (step r ex).1 ≠ Res.diverge) :
    ∀ (rs : List String) (ex : Exec), (resolveList step rs ex).1 ≠ Res.diverge := by
  intro rs
  induction rs with
  | nil => intro ex; simp [resolveList]
  | cons r rs ih =>
    intro ex
    unfold resolveList
    rcases hs : step r ex with ⟨r1, ex1⟩
    have hnd := hstep r ex
    rw [hs] at hnd
    cases r1 with
    | ok id =>
      simp only [bindR_ok]
      try dsimp only
      rcases hrl : resolveList step rs ex1 with ⟨r2, ex2⟩
      have hnd2 := ih ex1
      rw [hrl] at hnd2
      cases r2 with
      | ok ids =>
        simp only [bindR_ok]
        try dsimp only
        simp
      | err e => simp only [bindR_err]; simp
      | crash => simp only [bindR_crash]; simp
      | diverge => exact absurd rfl hnd2
    | err e => simp only [bindR_err]; simp
    | crash => simp only [bindR_crash]; simp
    | diverge => exact absurd rfl hnd

/-- Claim C4: the bootstrap avoids true recursion and terminates.  (1)
The fueled mutual recursion stabilizes at stratum 4: adding fuel does
not change `CreateInstallationToken`, so the chain
CreateInstallationToken → getRepositoryID → updateRepositories →
CreateInstallationToken(empty) has bounded depth; (2) with an empty
repository list one stratum suffices -- the bootstrap call never invokes
repository resolution; (3) given terminating remote page chains, the
entry point never diverges. -/
theorem C4_bootstrap_terminates :
    (∀ (w : World) (pf n : Nat) (o : String) (rs : List String)
        (p : InstallationPermissions) (ex : Exec),
        (funsAt w pf (n + 4)).cit o rs p ex = CreateInstallationToken w pf o rs p ex)
    ∧ (∀ (w : World) (pf n : Nat) (o : String) (p : InstallationPermissions) (ex : Exec),
        (funsAt w pf (n + 1)).cit o [] p ex = (funsAt w pf 1).cit o [] p ex)
    ∧ (∀ (w : World) (pf : Nat) (o : String) (rs : List String)
        (p : InstallationPermissions) (ex : Exec),
        (∀ q pgs, fetchPages (fun page => w.listInstallations 10 page) pf q
            ≠ FetchRes.diverge pgs) →
        (∀ tk q pgs, fetchPages (fun page => w.listRepos tk 100 page) pf q
            ≠ FetchRes.diverge pgs) →
        (CreateInstallationToken w pf o rs p ex).1 ≠ Res.diverge) := by
  refine ⟨?_, ?_, ?_⟩
  · intro w pf n o rs p ex
    exact funsAt_cit_stable w pf n o rs p ex
  · intro w pf n o p ex
    exact funsAt_cit_nil w pf n o p ex
  · intro w pf o rs p ex hI hR
    rw [CreateInstallationToken_def]
    unfold citBody
    rcases hg : getInstallationID w pf o ex with ⟨r, ex1⟩
    have hnd := getInstallationID_not_diverge hI o ex
    rw [hg] at hnd
    cases r with
    | ok id =>
      simp only [bindR_ok]
      try dsimp only
      rcases hrl : resolveList (fun repo ex3 => getRepositoryID w pf o repo ex3) rs ex1
        with ⟨r2, ex2⟩
      have hnd2 := resolveList_not_diverge (fun repo ex3 => getRepositoryID w pf o repo ex3)
        (fun r3 ex3 => getRepositoryID_not_diverge hI hR o r3 ex3) rs ex1
      rw [hrl] at hnd2
      cases r2 with
      | ok ids =>
        simp only [bindR_ok]
        try dsimp only
        exact mintToken_not_diverge w id ids p ex2
      | err e => simp only [bindR_err]; simp
      | crash => simp only [bindR_crash]; simp
      | diverge => exact absurd rfl hnd2
    | err e => simp only [bindR_err]; simp
    | crash => simp only [bindR_crash]; simp
    | diverge => exact absurd rfl hnd

/-- Witness for claim C4 at a concrete input: in an environment with
single-page listings the entry point does not diverge. -/
theorem C4_witness :
    (CreateInstallationToken wA 2 ("acme") [("infra")] emptyPermissions ex0).1 ≠ Res.diverge :=
  C4_bootstrap_terminates.2.2 wA 2 ("acme") [("infra")] emptyPermissions ex0
    (by intro q pgs; simp [fetchPages, wA])
    (by intro tk q pgs; simp [fetchPages, wA])

/-! ## Claim C10 -/

theorem updateInstallations_log_shape (w : World) (pf : Nat) (ex : Exec) :
    (updateInstallations w pf ex).2.log = ex.log
    ∨ ∃ pages : List Nat, (updateInstallations w pf ex).2.log
        = ex.log ++ pages.map (fun p => RemoteCall.listInst 10 p) := by
  rcases updateInstallations_cases w pf ex with ⟨hg, hs⟩ |
    ⟨hg, ⟨g, p, hf, hs⟩ | ⟨e2, p, hf, hs⟩ | ⟨p, hf, hs⟩⟩
  · rw [hs]; exact Or.inl rfl
  · rw [hs]; exact Or.inr ⟨p, rfl⟩
  · rw [hs]; exact Or.inr ⟨p, rfl⟩
  · rw [hs]; exact Or.inr ⟨p, rfl⟩

theorem citBody_nil_log (w : World) (pf : Nat) (g : String → String → Exec → Res Int × Exec)
    (o : String) (p : InstallationPermissions) (ex : Exec) :
    ∃ δ, (citBody w pf g o [] p ex).2.log = ex.log ++ δ
      ∧ ∀ c ∈ δ, c.isListRepos = false := by
  rw [citBody_nil]
  rcases hg : getInstallationID w pf o ex with ⟨r, ex1⟩
  have hlog1 : ex1.log = (updateInstallations w pf ex).2.log := by
    have h2 := getInstallationID_exec w pf o ex
    rw [hg] at h2
    exact congrArg Exec.log h2
  have hδ1 : ∃ δ1, ex1.log = ex.log ++ δ1 ∧ ∀ c ∈ δ1, c.isListRepos = false := by
    rcases updateInstallations_log_shape w pf ex with h1 | ⟨pages, h1⟩
    · exact ⟨[], by rw [hlog1, h1]; simp, by simp⟩
    · refine ⟨pages.map (fun q => RemoteCall.listInst 10 q), by rw [hlog1, h1], ?_⟩
      intro c hc
      simp only [List.mem_map] at hc
      rcases hc with ⟨q, _, rfl⟩
      rfl
  obtain ⟨δ1, hd1, hd1f⟩ := hδ1
  cases r with
  | ok id =>
    rw [bindR_ok]
    try dsimp only
    refine ⟨δ1 ++ [RemoteCall.mint id [] p], ?_, ?_⟩
    · rw [(mintToken_state w id [] p ex1).2.2, hd1, List.append_assoc]
    · intro c hc
      rcases List.mem_append.mp hc with h2 | h2
      · exact hd1f c h2
      · simp only [List.mem_singleton] at h2
        subst h2
        rfl
  | err e => rw [bindR_err]; exact ⟨δ1, hd1, hd1f⟩
  | crash => rw [bindR_crash]; exact ⟨δ1, hd1, hd1f⟩
  | diverge => rw [bindR_diverge]; exact ⟨δ1, hd1, hd1f⟩

/-- Claim C10: frame property of the empty-repository-list call.  At any
stratum, `CreateInstallationToken` with an empty name list (1) equals
the one-stratum bootstrap -- it never invokes repository resolution,
(2) logs no repository-listing remote call, and (3) either leaves the
state unchanged or performs exactly the installation-list swap of the
freshness-gated `updateInstallations`, in which every entry carries an
empty repository list and zero repository timestamp -- it never writes
any existing Repositories field. -/
theorem C10_empty_call_frame :
    ∀ (w : World) (pf fuel : Nat) (o : String) (p : InstallationPermissions) (ex : Exec),
      ((funsAt w pf (fuel + 1)).cit o [] p ex = (funsAt w pf 1).cit o [] p ex)
      ∧ (∃ δ, ((funsAt w pf (fuel + 1)).cit o [] p ex).2.log = ex.log ++ δ
          ∧ ∀ c ∈ δ, c.isListRepos = false)
      ∧ (((funsAt w pf (fuel + 1)).cit o [] p ex).2.s = ex.s
        ∨ ∀ i ∈ ((funsAt w pf (fuel + 1)).cit o [] p ex).2.s.installs,
            i.Repositories = [] ∧ i.RepositoriesUpdatedAt = 0) := by
  intro w pf fuel o p ex
  have hb : (funsAt w pf (fuel + 1)).cit o [] p ex
      = citBody w pf (funsAt w pf fuel).grid o [] p ex := rfl
  refine ⟨funsAt_cit_nil w pf fuel o p ex, ?_, ?_⟩
  · rw [hb]
    exact citBody_nil_log w pf (funsAt w pf fuel).grid o p ex
  · rw [hb]
    have hst := citBody_nil_state w pf (funsAt w pf fuel).grid o p ex
    rw [hst]
    exact updateInstallations_state_cases w pf ex

/-! ## Claim C7 -/

theorem fetchPages_succ_err0 {α : Type} {call : Nat → Except String (List α × Nat)}
    {page : Nat} {e : String} (f : Nat) (h : call page = Except.error e) :
    fetchPages call (f + 1) page = FetchRes.err e [page] := by
  unfold fetchPages
  rw [h]

theorem fetchPages_succ_last {α : Type} {call : Nat → Except String (List α × Nat)}
    {page : Nat} {items : List α} {next : Nat} (f : Nat)
    (h : call page = Except.ok (items, next)) (hn : next = 0) :
    fetchPages call (f + 1) page = FetchRes.ok items [page] := by
  unfold fetchPages
  rw [h]
  try dsimp only
  rw [if_pos hn]

theorem fetchPages_succ_cont_ok {α : Type} {call : Nat → Except String (List α × Nat)}
    {page : Nat} {items : List α} {next : Nat} {f : Nat} {rest : List α} {pgs : List Nat}
    (h : call page = Except.ok (items, next)) (hn : next ≠ 0)
    (hr : fetchPages call f next = FetchRes.ok rest pgs) :
    fetchPages call (f + 1) page = FetchRes.ok (items ++ rest) (page :: pgs) := by
  unfold fetchPages
  rw [h]
  try dsimp only
  rw [if_neg hn, hr]

theorem fetchPages_succ_cont_err {α : Type} {call : Nat → Except String (List α × Nat)}
    {page : Nat} {items : List α} {next : Nat} {f : Nat} {e : String} {pgs : List Nat}
    (h : call page = Except.ok (items, next)) (hn : next ≠ 0)
    (hr : fetchPages call f next = FetchRes.err e pgs) :
    fetchPages call (f + 1) page = FetchRes.err e (page :: pgs) := by
  unfold fetchPages
  rw [h]
  try dsimp only
  rw [if_neg hn, hr]

theorem fetchPages_succ_cont_diverge {α : Type} {call : Nat → Except String (List α × Nat)}
    {page : Nat} {items : List α} {next : Nat} {f : Nat} {pgs : List Nat}
    (h : call page = Except.ok (items, next)) (hn : next ≠ 0)
    (hr : fetchPages call f next = FetchRes.diverge pgs) :
    fetchPages call (f + 1) page = FetchRes.diverge (page :: pgs) := by
  unfold fetchPages
  rw [h]
  try dsimp only
  rw [if_neg hn, hr]

theorem fetchPages_err_last {α : Type} (call : Nat → Except String (List α × Nat)) :
    ∀ (fuel start : Nat) (e : String) (pages : List Nat),
      fetchPages call fuel start = FetchRes.err e pages →
      ∃ ps q, pages = ps ++ [q] ∧ call q = Except.error e := by
  intro fuel
  induction fuel with
  | zero =>
    intro start e pages h
    exact absurd h (by simp [fetchPages])
  | succ f ih =>
    intro start e pages h
    rcases hc : call start with e2 | ⟨items, next⟩
    · rw [fetchPages_succ_err0 f hc] at h
      simp only [FetchRes.err.injEq] at h
      obtain ⟨he, hp⟩ := h
      subst he
      refine ⟨[], start, by rw [← hp]; rfl, hc⟩
    · by_cases hn : next = 0
      · rw [fetchPages_succ_last f hc hn] at h
        exact absurd h (by simp)
      · rcases hr : fetchPages call f next with ⟨rest, pgs⟩ | ⟨e1, pgs⟩ | ⟨pgs⟩
        · rw [fetchPages_succ_cont_ok hc hn hr] at h
          exact absurd h (by simp)
        · rw [fetchPages_succ_cont_err hc hn hr] at h
          simp only [FetchRes.err.injEq] at h
          obtain ⟨he, hp⟩ := h
          rcases ih next e1 pgs hr with ⟨ps, q, hps, hq⟩
          refine ⟨start :: ps, q, ?_, ?_⟩
          · rw [← hp, hps]
            rfl
          · rw [← he]
            exact hq
        · rw [fetchPages_succ_cont_diverge hc hn hr] at h
          exact absurd h (by simp)

/-- Claim C7 as stated is false on the code: a failing paginated list
call is returned to the caller verbatim (src/app.go line 114), not
wrapped or annotated -- the returned error carries exactly the message
of the originating remote error. -/
theorem C7_counterexample :
    (updateInstallations wErr 2 ex0).1 = Res.err (AppError.remote ("boom"))
    ∧ AppError.message (AppError.remote ("boom")) = ("boom") := by
  exact ⟨by decide, rfl⟩

/-- Claim C7 (amended): every remote failure aborts the operation and is
propagated to the immediate caller without retry and without being
translated into NotFound; the paginated list failures are propagated
verbatim (the returned error is the remote error, its message
unchanged, and the erroring call is the last remote call logged), while
only the token-mint failure is annotated, prepending
`failed to create token: `. -/
theorem C7_remote_error_propagation :
    (∀ (w : World) (pf : Nat) (ex : Exec) (e2 : AppError),
        (updateInstallations w pf ex).1 = Res.err e2 →
        ∃ (e : String) (ps : List Nat) (q : Nat), e2 = AppError.remote e
          ∧ AppError.message e2 = e
          ∧ (∀ k, e2 ≠ AppError.installationNotFound k)
          ∧ w.listInstallations 10 q = Except.error e
          ∧ (updateInstallations w pf ex).2.log
              = ex.log ++ ps.map (fun p => RemoteCall.listInst 10 p) ++ [RemoteCall.listInst 10 q]
          ∧ (updateInstallations w pf ex).2.s = ex.s)
    ∧ (∀ (w : World) (id : Int) (ids : List Int) (p : InstallationPermissions)
        (ex : Exec) (e : String),
        w.createInstallationToken id ids p = Except.error e →
        mintToken w id ids p ex
          = (Res.err (AppError.tokenCreateFailed e),
             { ex with log := ex.log ++ [RemoteCall.mint id ids p] })
        ∧ AppError.message (AppError.tokenCreateFailed e) = "failed to create token: " ++ e
        ∧ (∀ k, AppError.tokenCreateFailed e ≠ AppError.installationNotFound k))
    ∧ (∀ (w : World) (pf : Nat) (o : String) (ex : Exec) (idx : Nat) (inst : installation)
        (tok : InstallationToken) (ex2 : Exec) (e : String) (pgs : List Nat),
        lastOwnerFind ex.s.installs o = some (idx, inst) →
        ¬ inst.RepositoriesUpdatedAt + w.updateInterval > w.clock ex.tick →
        (funsAt w pf 1).cit o [] emptyPermissions { ex with tick := ex.tick + 1 }
          = (Res.ok tok, ex2) →
        fetchPages (fun page => w.listRepos tok.token 100 page) pf 0 = FetchRes.err e pgs →
        updateRepositories w pf o ex
          = (Res.err (AppError.remote e),
             { ex2 with log := ex2.log ++ pgs.map (fun p => RemoteCall.listRepos tok.token 100 p) })
        ∧ ∃ (ps : List Nat) (q : Nat), pgs = ps ++ [q]
            ∧ w.listRepos tok.token 100 q = Except.error e) := by
  refine ⟨?_, ?_, ?_⟩
  · intro w pf ex e2 h
    rcases updateInstallations_cases w pf ex with ⟨hg, hs⟩ |
      ⟨hg, ⟨g, p, hf, hs⟩ | ⟨e3, p, hf, hs⟩ | ⟨p, hf, hs⟩⟩
    · rw [hs] at h; simp at h
    · rw [hs] at h; simp at h
    · rw [hs] at h
      simp only [Res.err.injEq] at h
      subst h
      rcases fetchPages_err_last (fun page => w.listInstallations 10 page) pf 0 e3 p hf
        with ⟨ps, q, hps, hq⟩
      refine ⟨e3, ps, q, rfl, rfl, ?_, hq, ?_, ?_⟩
      · intro k hk
        cases hk
      · rw [hs, hps]
        simp [List.map_append]
      · rw [hs]
    · rw [hs] at h; simp at h
  · intro w id ids p ex e h
    exact ⟨mintToken_err ex h, rfl, by intro k hk; cases hk⟩
  · intro w pf o ex idx inst tok ex2 e pgs hscan hgate hc hf
    constructor
    · rw [updateRepositories_def, urBody_refresh w pf _ hscan hgate, hc, bindR_ok]
      exact urFetch_err ex2 hf
    · exact fetchPages_err_last (fun page => w.listRepos tok.token 100 page) pf 0 e pgs hf

/-- Witness for the amended claim C7 at a concrete input: the failing
installation page of `wErr` propagates verbatim, is logged last, and
mutates nothing. -/
theorem C7_witness :
    ∃ (e : String) (ps : List Nat) (q : Nat), AppError.remote ("boom") = AppError.remote e
      ∧ AppError.message (AppError.remote ("boom")) = e
      ∧ (∀ k, AppError.remote ("boom") ≠ AppError.installationNotFound k)
      ∧ wErr.listInstallations 10 q = Except.error e
      ∧ (updateInstallations wErr 2 ex0).2.log
          = ex0.log ++ ps.map (fun p => RemoteCall.listInst 10 p) ++ [RemoteCall.listInst 10 q]
      ∧ (updateInstallations wErr 2 ex0).2.s = ex0.s :=
  C7_remote_error_propagation.1 wErr 2 ex0 (AppError.remote ("boom")) (by decide)

/-! ## Claim C8 -/

theorem fetchPages_chain {α : Type} (call : Nat → Except String (List α × Nat)) :
    ∀ (seg : List (Nat × List α)) (p : Nat) (items : List α) (pf : Nat),
      Chain call ((p, items) :: seg) → seg.length + 1 ≤ pf →
      fetchPages call pf p
        = FetchRes.ok (items ++ (seg.map Prod.snd).join) (p :: seg.map Prod.fst) := by
  intro seg
  induction seg with
  | nil =>
    intro p items pf hch hpf
    have hc : call p = Except.ok (items, 0) := hch
    cases pf with
    | zero => omega
    | succ f =>
      rw [fetchPages_succ_last f hc rfl]
      simp
  | cons pr seg ih =>
    rcases pr with ⟨q, items2⟩
    intro p items pf hch hpf
    obtain ⟨hc, hq, hrest⟩ := hch
    cases pf with
    | zero => omega
    | succ f =>
      have hlen : seg.length + 1 ≤ f := by
        simp only [List.length_cons] at hpf
        omega
      have hrec := ih q items2 f hrest hlen
      rw [fetchPages_succ_cont_ok hc hq hrec]
      simp

/-- Claim C8: pagination is exhaustive, ordered and terminating.  Given
a cursor chain starting at page 0 whose last response carries
`NextPage == 0`, (1) an installation refresh fetches every page with
page size 10 in cursor order, concatenates the items in fetch order
into the single replacement list, and the replacement length is the sum
of the page lengths; (2) likewise a repository refresh pages with page
size 100 and installs the concatenation in fetch order via the captured
pointer. -/
theorem C8_pagination :
    (∀ (w : World) (pf : Nat) (ex : Exec) (items : List GhInstallation)
        (seg : List (Nat × List GhInstallation)),
        ¬ ex.s.installsUpdatedAt + w.updateInterval > w.clock ex.tick →
        Chain (fun page => w.listInstallations 10 page) ((0, items) :: seg) →
        seg.length + 1 ≤ pf →
        updateInstallations w pf ex =
          (Res.ok (),
            { s := { installs := (items ++ (seg.map Prod.snd).join).map mkInstallation
                   , installsUpdatedAt := w.clock (ex.tick + 1)
                   , gen := ex.s.gen + 1 }
            , tick := ex.tick + 2
            , log := ex.log ++ ((0 :: seg.map Prod.fst).map (fun p => RemoteCall.listInst 10 p)) })
          ∧ ((items ++ (seg.map Prod.snd).join).map mkInstallation).length
              = items.length + ((seg.map Prod.snd).map List.length).sum)
    ∧ (∀ (w : World) (pf : Nat) (o : String) (ex : Exec) (idx : Nat) (inst : installation)
        (tok : InstallationToken) (ex2 : Exec) (items : List GhRepository)
        (seg : List (Nat × List GhRepository)),
        lastOwnerFind ex.s.installs o = some (idx, inst) →
        ¬ inst.RepositoriesUpdatedAt + w.updateInterval > w.clock ex.tick →
        (funsAt w pf 1).cit o [] emptyPermissions { ex with tick := ex.tick + 1 }
          = (Res.ok tok, ex2) →
        Chain (fun page => w.listRepos tok.token 100 page) ((0, items) :: seg) →
        seg.length + 1 ≤ pf →
        ex2.s.gen = ex.s.gen →
        updateRepositories w pf o ex =
          (Res.ok (),
            { s := { installs := writeRepos ex2.s.installs idx
                       ((items ++ (seg.map Prod.snd).join).map mkRepository) (w.clock ex2.tick)
                   , installsUpdatedAt := ex2.s.installsUpdatedAt
                   , gen := ex2.s.gen }
            , tick := ex2.tick + 1
            , log := ex2.log ++ ((0 :: seg.map Prod.fst).map
                       (fun p => RemoteCall.listRepos tok.token 100 p)) })) := by
  constructor
  · intro w pf ex items seg hgate hch hpf
    have hf := fetchPages_chain (fun page => w.listInstallations 10 page) seg 0 items pf hch hpf
    constructor
    · exact updateInstallations_refresh_ok w pf ex _ _ hgate hf
    · simp only [List.length_map, List.length_append, List.length_join, List.map_map]
  · intro w pf o ex idx inst tok ex2 items seg hscan hgate hc hch hpf hgen
    have hf := fetchPages_chain (fun page => w.listRepos tok.token 100 page) seg 0 items pf hch hpf
    rw [updateRepositories_def, urBody_refresh w pf _ hscan hgate, hc, bindR_ok]
    exact urFetch_ok_write ex2 hf hgen

/-- Witness for claim C8 at a concrete input: the two-page chain
0 → 5 → stop of `wPages` is concatenated in order, and the resulting
list length is the sum of the page lengths. -/
theorem C8_witness :
    (updateInstallations wPages 3 ex0 =
      (Res.ok (),
        { s := { installs := (([giAlpha] ++ (([(5, [giBeta])].map Prod.snd).join)).map mkInstallation)
               , installsUpdatedAt := wPages.clock (ex0.tick + 1)
               , gen := ex0.s.gen + 1 }
        , tick := ex0.tick + 2
        , log := ex0.log ++ ((0 :: [(5, [giBeta])].map Prod.fst).map
                   (fun p => RemoteCall.listInst 10 p)) }))
    ∧ (([giAlpha] ++ (([(5, [giBeta])].map Prod.snd).join)).map mkInstallation).length
        = [giAlpha].length + (([(5, [giBeta])].map Prod.snd).map List.length).sum :=
  C8_pagination.1 wPages 3 ex0 [giAlpha] [(5, [giBeta])]
    (by decide) ⟨rfl, by decide, rfl⟩ (by decide)

end Githubapp
